import Mathlib

/-!
Verification of the snapbtrfs retention core: DST-aware calendar boundary
arithmetic (round to beginning of hour/day/week/month/year, previous boundary)
and the snapshot index with its window query and retention-marking pass.

Instants are modelled as integers counting microseconds since the Unix epoch
(1970-01-01T00:00:00Z).  All datetimes handled by the program carry a
whole-hour UTC offset (+0100 snapshot stamps, UTC "now"), so an aware datetime
is faithfully represented by its absolute instant; `replace`-style field
zeroing and field reads of such a datetime coincide with arithmetic on the
absolute instant.  The system local zone used by `astimezone()` is modelled as
a one-hour-offset zone with one spring-forward and one fall-back transition
(CET/CEST around 2019): offset +02:00 on [2019-03-31T01:00Z, 2019-10-27T01:00Z)
and +01:00 elsewhere.  Local civil fields (hour, weekday, day of month, day of
year) are derived from the wall-clock value via the proleptic Gregorian
calendar, implemented with the standard era-based civil-from-days algorithm.
-/

/-- Microseconds in one hour. -/
def usH : Int := 3600000000

/-- Microseconds in one day. -/
def usDay : Int := 86400000000

/-- Instant of the modelled spring-forward transition, 2019-03-31T01:00:00Z. -/
def dstSpring : Int := 1553994000000000

/-- Instant of the modelled fall-back transition, 2019-10-27T01:00:00Z. -/
def dstFall : Int := 1572138000000000

/-- UTC offset (in microseconds) of the modelled local zone at instant `t`. -/
def utcOffset (t : Int) : Int := if dstSpring ≤ t ∧ t < dstFall then 2 * usH else usH

/-- Local wall-clock value of instant `t` (microseconds since the epoch's local midnight). -/
def wall (t : Int) : Int := t + utcOffset t

/-- Local hour field (0..23) of instant `t`, as read from `t.astimezone()`. -/
def localHour (t : Int) : Int := wall t % usDay / usH

/-- Index of the local calendar day containing instant `t` (days since 1970-01-01 local). -/
def dayIdx (t : Int) : Int := wall t / usDay

/-- Local weekday of instant `t`, Monday = 0 (1970-01-01 was a Thursday). -/
def weekdayOf (t : Int) : Int := (dayIdx t + 3) % 7

/-!
Civil (proleptic Gregorian) calendar on day indices, via the standard
era-based algorithm: an era is a 400-year cycle of 146097 days; inside an era
years are counted from March 1 so that the leap day is the last day of a year.
-/

/-- Year-of-era of a day-of-era (0 ≤ doe < 146097), March-based. -/
def yoeOfDoe (doe : Int) : Int := (doe - doe / 1460 + doe / 36524 - doe / 146096) / 365

/-- First day-of-era of the March-based year-of-era `y`. -/
def dstart (y : Int) : Int := 365 * y + y / 4 - y / 100

/-- One past the last day-of-era of the March-based year-of-era `y` (for 0 ≤ y ≤ 399). -/
def dnext (y : Int) : Int := if y = 399 then 146097 else dstart (y + 1)

/-- Day-of-year (March-based, 0-based) of a day-of-era. -/
def doyOfDoe (doe : Int) : Int := doe - dstart (yoeOfDoe doe)

/-- Month index counted from March (0 = March .. 11 = February) of a March-based day-of-year. -/
def mpOf (doy : Int) : Int := (5 * doy + 2) / 153

/-- Day of month (1-based) of a March-based day-of-year. -/
def domOfDoy (doy : Int) : Int := doy - (153 * mpOf doy + 2) / 5 + 1

/-- Era of the day index `n` (days since 1970-01-01). -/
def eraOf (n : Int) : Int := (n + 719468) / 146097

/-- Day-of-era of the day index `n`. -/
def doeOf (n : Int) : Int := (n + 719468) % 146097

/-- Civil day of month (1..31) of the day index `n`. -/
def civilDay (n : Int) : Int := domOfDoy (doyOfDoe (doeOf n))

/-- March-based month index of the day index `n`. -/
def civilMp (n : Int) : Int := mpOf (doyOfDoe (doeOf n))

/-- Civil month (1..12) of the day index `n`. -/
def civilMonth (n : Int) : Int := if civilMp n < 10 then civilMp n + 3 else civilMp n - 9

/-- Civil year of the day index `n`. -/
def civilYear (n : Int) : Int :=
  yoeOfDoe (doeOf n) + 400 * eraOf n + (if civilMonth n ≤ 2 then 1 else 0)

/-- Day index of the civil date (y, m, d), the inverse direction of the civil decomposition. -/
def daysFromCivil (y m d : Int) : Int :=
  (if m ≤ 2 then y - 1 else y) / 400 * 146097
    + dstart ((if m ≤ 2 then y - 1 else y) - 400 * ((if m ≤ 2 then y - 1 else y) / 400))
    + ((153 * (if 2 < m then m - 3 else m + 9) + 2) / 5 + d - 1) - 719468

/-- Day index of January 1 of civil year `y`. -/
def jan1 (y : Int) : Int := daysFromCivil y 1 1

/-- Zero-based day of year of the day index `n`: the program's
`local.toordinal() - datetime(local.year, 1, 1).toordinal()`. -/
def ydayOf (n : Int) : Int := n - jan1 (civilYear n)

/-!
Bounded verification helper: a binary-splitting boolean checker over an
integer interval, with its soundness lemma.
-/

/-- Check `P` on every integer in `[a, b)`, splitting the interval in half at
each fuel step. -/
def bcheck (P : Int → Bool) : Nat → Int → Int → Bool
  | 0, a, b => decide (b ≤ a)
  | f+1, a, b =>
    if b ≤ a then true
    else if a + 1 = b then P a
    else bcheck P f a ((a + b) / 2) && bcheck P f ((a + b) / 2) b

theorem bcheck_sound (P : Int → Bool) :
    ∀ (f : Nat) (a b : Int), bcheck P f a b = true → ∀ i, a ≤ i → i < b → P i = true := by
  intro f
  induction f with
  | zero =>
    intro a b h i hai hib
    simp only [bcheck, decide_eq_true_eq] at h
    omega
  | succ f ih =>
    intro a b h i hai hib
    simp only [bcheck] at h
    split at h
    · omega
    · split at h
      · next hab =>
        have hia : i = a := by omega
        rw [hia]; exact h
      · rw [Bool.and_eq_true] at h
        rcases lt_or_le i ((a + b) / 2) with hc | hc
        · exact ih a ((a + b) / 2) h.1 i hai hc
        · exact ih ((a + b) / 2) b h.2 i hc hib

/-!
Year-of-era layer: `yoeOfDoe` is the inverse of `dstart` on one era.
Verified from monotonicity (a one-step omega argument) plus evaluation of
`yoeOfDoe` at the 400 year boundaries of the era.
-/

/-- Boundary property checked for each year-of-era. -/
def yearB (y : Int) : Bool :=
  decide (yoeOfDoe (dstart y) = y) && decide (yoeOfDoe (dnext y - 1) = y)

set_option maxRecDepth 4000 in
set_option maxHeartbeats 1000000 in
theorem yearB_all : bcheck yearB 10 0 400 = true := by decide

theorem yoe_at_dstart {y : Int} (h0 : 0 ≤ y) (h1 : y ≤ 399) :
    yoeOfDoe (dstart y) = y ∧ yoeOfDoe (dnext y - 1) = y := by
  have h := bcheck_sound yearB 10 0 400 yearB_all y h0 (by omega)
  simp only [yearB, Bool.and_eq_true, decide_eq_true_eq] at h
  exact h

theorem yoe_step_mono {doe : Int} (h0 : 0 ≤ doe) (h1 : doe + 1 ≤ 146096) :
    yoeOfDoe doe ≤ yoeOfDoe (doe + 1) := by
  have hs : doe - doe / 1460 + doe / 36524 - doe / 146096
      ≤ (doe + 1) - (doe + 1) / 1460 + (doe + 1) / 36524 - (doe + 1) / 146096 := by
    by_cases hc : doe = 146095
    · subst hc; decide
    · have e1 : doe / 146096 = 0 := by omega
      have e2 : (doe + 1) / 146096 = 0 := by omega
      rw [e1, e2]
      omega
  exact Int.ediv_le_ediv (by norm_num) hs

theorem int_mono_of_step (f : Int → Int) (lo hi : Int)
    (hstep : ∀ x, lo ≤ x → x + 1 ≤ hi → f x ≤ f (x + 1)) :
    ∀ a b, lo ≤ a → a ≤ b → b ≤ hi → f a ≤ f b := by
  intro a b ha hab hb
  have key : ∀ n, a ≤ n → (n ≤ hi → f a ≤ f n) :=
    @Int.le_induction (fun n => n ≤ hi → f a ≤ f n) a (fun _ => le_refl _)
      (fun m hm ih hmhi => le_trans (ih (by omega)) (hstep m (by omega) hmhi))
  exact key b hab hb

theorem yoe_mono {a b : Int} (h0 : 0 ≤ a) (hab : a ≤ b) (hb : b ≤ 146096) :
    yoeOfDoe a ≤ yoeOfDoe b :=
  int_mono_of_step yoeOfDoe 0 146096 (fun _ hx hx1 => yoe_step_mono hx hx1) a b h0 hab hb

theorem dstart_gap {y : Int} : 365 ≤ dstart (y + 1) - dstart y ∧ dstart (y + 1) - dstart y ≤ 366 := by
  unfold dstart; omega

theorem dnext_gap {y : Int} (h0 : 0 ≤ y) (h1 : y ≤ 399) :
    365 ≤ dnext y - dstart y ∧ dnext y - dstart y ≤ 366 := by
  unfold dnext
  split
  · next h => subst h; unfold dstart; norm_num
  · exact dstart_gap

theorem dstart_nonneg {y : Int} (h : 0 ≤ y) : 0 ≤ dstart y := by
  unfold dstart; omega

theorem dnext_le {y : Int} (h0 : 0 ≤ y) (h1 : y ≤ 399) : dnext y ≤ 146097 := by
  unfold dnext dstart; omega

/-- Main inversion: for a day-of-era in range, `yoeOfDoe` names the unique
year-of-era whose day interval contains it. -/
theorem yoe_inv : ∀ doe : Int, 0 ≤ doe → doe < 146097 →
    dstart (yoeOfDoe doe) ≤ doe ∧ doe < dnext (yoeOfDoe doe) ∧
    0 ≤ yoeOfDoe doe ∧ yoeOfDoe doe ≤ 399 := by
  have base : dstart (yoeOfDoe 0) ≤ 0 ∧ 0 < dnext (yoeOfDoe 0) ∧
      0 ≤ yoeOfDoe 0 ∧ yoeOfDoe 0 ≤ 399 := by decide
  have main : ∀ doe : Int, 0 ≤ doe → doe < 146097 →
      dstart (yoeOfDoe doe) ≤ doe ∧ doe < dnext (yoeOfDoe doe) ∧
      0 ≤ yoeOfDoe doe ∧ yoeOfDoe doe ≤ 399 := by
    refine @Int.le_induction
      (fun doe => doe < 146097 → dstart (yoeOfDoe doe) ≤ doe ∧ doe < dnext (yoeOfDoe doe) ∧
        0 ≤ yoeOfDoe doe ∧ yoeOfDoe doe ≤ 399) 0 (fun _ => base) ?_
    intro n hn ih h1
    have hih := ih (by omega)
    obtain ⟨hl, hu, hy0, hy1⟩ := hih
    set y := yoeOfDoe n with hy
    by_cases hcase : n + 1 < dnext y
    · have hmono1 : yoeOfDoe n ≤ yoeOfDoe (n + 1) := yoe_step_mono hn (by omega)
      have hub : yoeOfDoe (n + 1) ≤ yoeOfDoe (dnext y - 1) := by
        apply yoe_mono (by omega) (by omega)
        have := dnext_le hy0 hy1
        omega
      rw [(yoe_at_dstart hy0 hy1).2] at hub
      have heq : yoeOfDoe (n + 1) = y := le_antisymm hub (by rw [hy]; exact hmono1)
      rw [heq]
      exact ⟨by omega, by omega, hy0, hy1⟩
    · have hend : n + 1 = dnext y := by omega
      have hy399 : y ≠ 399 := by
        intro hc
        have hd146 : dnext y = 146097 := by rw [hc]; rfl
        omega
      have hdn : dnext y = dstart (y + 1) := by
        unfold dnext
        rw [if_neg hy399]
      have heq : yoeOfDoe (n + 1) = y + 1 := by
        rw [hend, hdn]
        exact (yoe_at_dstart (by omega) (by omega)).1
      rw [heq]
      refine ⟨by omega, ?_, by omega, by omega⟩
      have := dnext_gap (y := y + 1) (by omega) (by omega)
      omega
  exact main

theorem doy_bounds {doe : Int} (h0 : 0 ≤ doe) (h1 : doe < 146097) :
    0 ≤ doyOfDoe doe ∧ doyOfDoe doe ≤ 365 := by
  have h := yoe_inv doe h0 h1
  have hg := dnext_gap h.2.2.1 h.2.2.2
  unfold doyOfDoe
  omega

/-- Within a March-based year, stepping one day back keeps the year-of-era. -/
theorem yoe_step_eq {doe : Int} (h0 : 1 ≤ doe) (h1 : doe < 146097)
    (hd : 1 ≤ doyOfDoe doe) :
    yoeOfDoe (doe - 1) = yoeOfDoe doe ∧ doyOfDoe (doe - 1) = doyOfDoe doe - 1 := by
  have h := yoe_inv doe (by omega) h1
  set y := yoeOfDoe doe with hy
  have hds : dstart y ≤ doe - 1 := by
    have : doyOfDoe doe = doe - dstart y := rfl
    omega
  have hge : y ≤ yoeOfDoe (doe - 1) := by
    have := (yoe_at_dstart h.2.2.1 h.2.2.2).1
    calc y = yoeOfDoe (dstart y) := this.symm
    _ ≤ yoeOfDoe (doe - 1) := yoe_mono (dstart_nonneg h.2.2.1) hds (by omega)
  have hle : yoeOfDoe (doe - 1) ≤ y := by
    have : yoeOfDoe (doe - 1) ≤ yoeOfDoe doe := yoe_mono (by omega) (by omega) (by omega)
    omega
  have heq : yoeOfDoe (doe - 1) = y := le_antisymm hle hge
  constructor
  · exact heq
  · unfold doyOfDoe
    rw [heq, ← hy]
    have : doyOfDoe doe = doe - dstart y := rfl
    omega

/-- Stepping back from the first day of a March-based year lands on the last
day (index 364 or 365) of the previous one. -/
theorem yoe_zero_back {doe : Int} (h0 : 1 ≤ doe) (h1 : doe < 146097)
    (hd : doyOfDoe doe = 0) :
    364 ≤ doyOfDoe (doe - 1) ∧ doyOfDoe (doe - 1) ≤ 365 := by
  have h := yoe_inv doe (by omega) h1
  set y := yoeOfDoe doe with hy
  have hds : doe = dstart y := by
    have : doyOfDoe doe = doe - dstart y := rfl
    omega
  have hy1 : 1 ≤ y := by
    by_contra hc
    have hy0 : y = 0 := by omega
    rw [hy0] at hds
    unfold dstart at hds
    omega
  have hdn : dnext (y - 1) = dstart y := by
    unfold dnext
    rw [if_neg (by omega)]
    norm_num
  have hprev : yoeOfDoe (doe - 1) = y - 1 := by
    have := (yoe_at_dstart (y := y - 1) (by omega) (by omega)).2
    rw [hdn, ← hds] at this
    exact this
  have hgap := dnext_gap (y := y - 1) (by omega) (by omega)
  rw [hdn] at hgap
  constructor
  · unfold doyOfDoe
    rw [hprev]
    omega
  · exact (doy_bounds (by omega) (by omega)).2

/-!
Day-of-year layer: facts about `mpOf` and `domOfDoy` on the 366 possible
March-based day-of-year values, verified by finite check.
-/

/-- Properties checked for each March-based day-of-year value. -/
def doyB (doy : Int) : Bool :=
  decide ((153 * mpOf doy + 2) / 5 ≤ doy ∧ doy < (153 * (mpOf doy + 1) + 2) / 5 ∧
    0 ≤ mpOf doy ∧ mpOf doy ≤ 11 ∧ 1 ≤ domOfDoy doy ∧ domOfDoy doy ≤ 31 ∧
    (2 ≤ domOfDoy doy → 1 ≤ doy ∧ mpOf (doy - 1) = mpOf doy ∧
      domOfDoy (doy - 1) = domOfDoy doy - 1) ∧
    (domOfDoy doy = 1 → 1 ≤ doy → 28 ≤ domOfDoy (doy - 1) ∧ domOfDoy (doy - 1) ≤ 31) ∧
    (364 ≤ doy → 28 ≤ domOfDoy doy))

set_option maxRecDepth 4000 in
set_option maxHeartbeats 1000000 in
theorem doyB_all : bcheck doyB 10 0 366 = true := by decide

theorem doy_facts {doy : Int} (h0 : 0 ≤ doy) (h1 : doy ≤ 365) :
    (153 * mpOf doy + 2) / 5 ≤ doy ∧ doy < (153 * (mpOf doy + 1) + 2) / 5 ∧
    0 ≤ mpOf doy ∧ mpOf doy ≤ 11 ∧ 1 ≤ domOfDoy doy ∧ domOfDoy doy ≤ 31 ∧
    (2 ≤ domOfDoy doy → 1 ≤ doy ∧ mpOf (doy - 1) = mpOf doy ∧
      domOfDoy (doy - 1) = domOfDoy doy - 1) ∧
    (domOfDoy doy = 1 → 1 ≤ doy → 28 ≤ domOfDoy (doy - 1) ∧ domOfDoy (doy - 1) ≤ 31) ∧
    (364 ≤ doy → 28 ≤ domOfDoy doy) := by
  have h := bcheck_sound doyB 10 0 366 doyB_all doy h0 (by omega)
  simp only [doyB, decide_eq_true_eq] at h
  exact h

/-!
Day-index layer for months: bounds on the civil day of month, its unit-step
behaviour, and the characterization of the first day of a month as the
greatest month start at or below a given day.
-/

theorem doeOf_bounds (n : Int) : 0 ≤ doeOf n ∧ doeOf n < 146097 := by
  unfold doeOf; omega

theorem n_decomp (n : Int) : n = 146097 * eraOf n + doeOf n - 719468 := by
  unfold eraOf doeOf; omega

theorem civilDay_bounds (n : Int) : 1 ≤ civilDay n ∧ civilDay n ≤ 31 := by
  have hdoe := doeOf_bounds n
  have hdoy := doy_bounds hdoe.1 hdoe.2
  have hf := doy_facts hdoy.1 hdoy.2
  exact ⟨hf.2.2.2.2.1, hf.2.2.2.2.2.1⟩

theorem doeOf_sub_one {n : Int} (h : 1 ≤ doeOf n) : doeOf (n - 1) = doeOf n - 1 := by
  unfold doeOf at h ⊢; omega

theorem civilDay_step {n : Int} (h : 2 ≤ civilDay n) : civilDay (n - 1) = civilDay n - 1 := by
  have hdoe := doeOf_bounds n
  have hdoy := doy_bounds hdoe.1 hdoe.2
  have hf := doy_facts hdoy.1 hdoy.2
  have hstep := hf.2.2.2.2.2.2.1 h
  have hdoe1 : 1 ≤ doeOf n := by
    by_contra hc
    have h0 : doeOf n = 0 := by omega
    have : civilDay n = 1 := by
      unfold civilDay
      rw [h0]
      decide
    omega
  have hsub := doeOf_sub_one hdoe1
  have hy := yoe_step_eq hdoe1 hdoe.2 hstep.1
  unfold civilDay
  rw [hsub, hy.2]
  exact hstep.2.2

theorem civilDay_back {n : Int} (h : civilDay n = 1) :
    28 ≤ civilDay (n - 1) ∧ civilDay (n - 1) ≤ 31 := by
  have hdoe := doeOf_bounds n
  have hdoy := doy_bounds hdoe.1 hdoe.2
  by_cases hz : doeOf n = 0
  · have hsub : doeOf (n - 1) = 146096 := by
      unfold doeOf at hz ⊢; omega
    have hval : civilDay (n - 1) = 29 := by
      unfold civilDay
      rw [hsub]
      decide
    omega
  · have hdoe1 : 1 ≤ doeOf n := by omega
    have hsub := doeOf_sub_one hdoe1
    by_cases hdz : doyOfDoe (doeOf n) = 0
    · have hb := yoe_zero_back hdoe1 hdoe.2 hdz
      have hf1 := @doy_facts (doyOfDoe (doeOf n - 1)) (by omega) hb.2
      have h28 := hf1.2.2.2.2.2.2.2.2 hb.1
      unfold civilDay
      rw [hsub]
      exact ⟨h28, hf1.2.2.2.2.2.1⟩
    · have hdy1 : 1 ≤ doyOfDoe (doeOf n) := by omega
      have hy := yoe_step_eq hdoe1 hdoe.2 hdy1
      have hf := doy_facts hdoy.1 hdoy.2
      have hback := hf.2.2.2.2.2.2.2.1 (by unfold civilDay at h; exact h) hdy1
      unfold civilDay
      rw [hsub, hy.2]
      exact hback

theorem civilDay_lin {n : Int} :
    ∀ j : Nat, (j : Int) ≤ civilDay n - 1 → civilDay (n - (j : Int)) = civilDay n - j := by
  intro j
  induction j with
  | zero => intro _; simp
  | succ k ih =>
    intro hj
    have hk := ih (by push_cast at hj ⊢; omega)
    have h2 : 2 ≤ civilDay (n - (k : Int)) := by
      rw [hk]; push_cast at hj ⊢; omega
    have := civilDay_step h2
    rw [hk] at this
    have harg : n - ((k : Int) + 1) = n - (k : Int) - 1 := by ring
    push_cast
    rw [harg, this]
    ring

/-- Day index of the first day of the month containing day `n`. -/
def monthStartIdx (n : Int) : Int := n - (civilDay n - 1)

theorem monthStartIdx_spec (n : Int) :
    civilDay (monthStartIdx n) = 1 ∧ monthStartIdx n ≤ n := by
  have hb := civilDay_bounds n
  have hj : ((civilDay n - 1).toNat : Int) = civilDay n - 1 := by omega
  have := civilDay_lin (n := n) (civilDay n - 1).toNat (by omega)
  rw [hj] at this
  unfold monthStartIdx
  constructor
  · rw [this]; ring
  · omega

theorem monthStart_greatest {n k : Int} (hk : civilDay k = 1) (hkn : k ≤ n) :
    k ≤ monthStartIdx n := by
  by_contra hc
  have hlt : monthStartIdx n < k := by omega
  have hb := civilDay_bounds n
  set j : Int := n - k with hjdef
  have hj0 : 0 ≤ j := by omega
  have hjb : j ≤ civilDay n - 2 := by
    unfold monthStartIdx at hlt
    omega
  have hcast : ((j.toNat : Int)) = j := by omega
  have := civilDay_lin (n := n) j.toNat (by omega)
  rw [hcast] at this
  have hkn' : n - j = k := by omega
  rw [hkn'] at this
  omega

theorem monthStartIdx_mono {a b : Int} (h : a ≤ b) : monthStartIdx a ≤ monthStartIdx b := by
  have hs := monthStartIdx_spec a
  exact monthStart_greatest hs.1 (le_trans hs.2 h)

theorem monthStartIdx_fix {n : Int} (h : civilDay n = 1) : monthStartIdx n = n := by
  unfold monthStartIdx
  omega

/-!
Civil-year layer: `daysFromCivil` inverts the civil decomposition, January 1
of the civil year of `n` is the greatest year start at or below `n`, and the
program's zero-based day of year steps by one inside a year.
-/

/-- Era-and-year part of `daysFromCivil`, as a function of the March-based year. -/
def yearBase (z : Int) : Int := z / 400 * 146097 + dstart (z - 400 * (z / 400))

theorem dfc_eq (y m d : Int) : daysFromCivil y m d =
    yearBase (if m ≤ 2 then y - 1 else y)
      + ((153 * (if 2 < m then m - 3 else m + 9) + 2) / 5 + d - 1) - 719468 := rfl

theorem yearBase_gap (z : Int) :
    365 ≤ yearBase (z + 1) - yearBase z ∧ yearBase (z + 1) - yearBase z ≤ 366 := by
  unfold yearBase dstart
  omega

theorem jan1_eq (y : Int) : jan1 y = yearBase (y - 1) + 306 - 719468 := by
  rw [jan1, dfc_eq]
  norm_num

theorem jan1_gap (y : Int) : 365 ≤ jan1 (y + 1) - jan1 y ∧ jan1 (y + 1) - jan1 y ≤ 366 := by
  rw [jan1_eq, jan1_eq]
  have harg : y + 1 - 1 = y := by ring
  rw [harg]
  have := yearBase_gap (y - 1)
  have harg2 : y - 1 + 1 = y := by ring
  rw [harg2] at this
  omega

theorem jan1_strictMono : StrictMono jan1 :=
  strictMono_int_of_lt_succ (fun z => by have := jan1_gap z; omega)

theorem civil_roundtrip (n : Int) :
    daysFromCivil (civilYear n) (civilMonth n) (civilDay n) = n := by
  have hdoe := doeOf_bounds n
  have hinv := yoe_inv (doeOf n) hdoe.1 hdoe.2
  have hdoy := doy_bounds hdoe.1 hdoe.2
  have hf := doy_facts hdoy.1 hdoy.2
  have hmp0 : 0 ≤ civilMp n := hf.2.2.1
  have hmp11 : civilMp n ≤ 11 := hf.2.2.2.1
  have hdoydef : doyOfDoe (doeOf n) = doeOf n - dstart (yoeOfDoe (doeOf n)) := rfl
  have hdomdef : civilDay n = doyOfDoe (doeOf n) - (153 * civilMp n + 2) / 5 + 1 := rfl
  have hdec := n_decomp n
  have hyb : yearBase (yoeOfDoe (doeOf n) + 400 * eraOf n)
      = eraOf n * 146097 + dstart (yoeOfDoe (doeOf n)) := by
    unfold yearBase
    have h400 : (yoeOfDoe (doeOf n) + 400 * eraOf n) / 400 = eraOf n := by omega
    rw [h400]
    have harg : yoeOfDoe (doeOf n) + 400 * eraOf n - 400 * eraOf n = yoeOfDoe (doeOf n) := by
      ring
    rw [harg]
  by_cases hm : civilMp n < 10
  · have hmonth : civilMonth n = civilMp n + 3 := by unfold civilMonth; rw [if_pos hm]
    have hm2 : ¬ (civilMonth n ≤ 2) := by omega
    have hyear : civilYear n = yoeOfDoe (doeOf n) + 400 * eraOf n := by
      unfold civilYear
      rw [if_neg hm2]
      ring
    rw [dfc_eq, if_neg hm2, if_pos (by omega : 2 < civilMonth n), hyear, hyb, hmonth]
    have hmm : civilMp n + 3 - 3 = civilMp n := by ring
    rw [hmm]
    omega
  · have hmonth : civilMonth n = civilMp n - 9 := by unfold civilMonth; rw [if_neg hm]
    have hm2 : civilMonth n ≤ 2 := by omega
    have hyear : civilYear n = yoeOfDoe (doeOf n) + 400 * eraOf n + 1 := by
      unfold civilYear
      rw [if_pos hm2]
    have hyear1 : civilYear n - 1 = yoeOfDoe (doeOf n) + 400 * eraOf n := by omega
    rw [dfc_eq, if_pos hm2, if_neg (by omega : ¬ (2 < civilMonth n)), hyear1, hyb, hmonth]
    have hmm : civilMp n - 9 + 9 = civilMp n := by ring
    rw [hmm]
    omega

theorem civilMonth_bounds (n : Int) : 1 ≤ civilMonth n ∧ civilMonth n ≤ 12 := by
  have hdoe := doeOf_bounds n
  have hdoy := doy_bounds hdoe.1 hdoe.2
  have hf := doy_facts hdoy.1 hdoy.2
  have hmp0 : 0 ≤ civilMp n := hf.2.2.1
  have hmp11 : civilMp n ≤ 11 := hf.2.2.2.1
  unfold civilMonth
  split <;> omega

theorem jan1_le (n : Int) : jan1 (civilYear n) ≤ n ∧ n < jan1 (civilYear n + 1) := by
  have hrt := civil_roundtrip n
  have hdb := civilDay_bounds n
  have hdoe := doeOf_bounds n
  have hdoy := doy_bounds hdoe.1 hdoe.2
  have hf := doy_facts hdoy.1 hdoy.2
  have hmp0 : 0 ≤ civilMp n := hf.2.2.1
  have hmp11 : civilMp n ≤ 11 := hf.2.2.2.1
  have hj1 : jan1 (civilYear n) = yearBase (civilYear n - 1) + 306 - 719468 := jan1_eq _
  have hj2 : jan1 (civilYear n + 1) = yearBase (civilYear n) + 306 - 719468 := by
    rw [jan1_eq]
    have harg : civilYear n + 1 - 1 = civilYear n := by ring
    rw [harg]
  have hgap := yearBase_gap (civilYear n - 1)
  have harg2 : civilYear n - 1 + 1 = civilYear n := by ring
  rw [harg2] at hgap
  by_cases hm : civilMp n < 10
  · have hmonth : civilMonth n = civilMp n + 3 := by unfold civilMonth; rw [if_pos hm]
    have hm2 : ¬ (civilMonth n ≤ 2) := by omega
    rw [dfc_eq, if_neg hm2, if_pos (by omega : 2 < civilMonth n), hmonth] at hrt
    have hmm : civilMp n + 3 - 3 = civilMp n := by ring
    rw [hmm] at hrt
    omega
  · have hmonth : civilMonth n = civilMp n - 9 := by unfold civilMonth; rw [if_neg hm]
    have hm2 : civilMonth n ≤ 2 := by omega
    rw [dfc_eq, if_pos hm2, if_neg (by omega : ¬ (2 < civilMonth n)), hmonth] at hrt
    have hmm : civilMp n - 9 + 9 = civilMp n := by ring
    rw [hmm] at hrt
    omega

theorem civilYear_unique {y n : Int} (h1 : jan1 y ≤ n) (h2 : n < jan1 (y + 1)) :
    civilYear n = y := by
  have hy := jan1_le n
  by_contra hc
  rcases lt_or_gt_of_ne hc with hlt | hgt
  · have : jan1 (civilYear n + 1) ≤ jan1 y := jan1_strictMono.monotone (by omega)
    omega
  · have : jan1 (y + 1) ≤ jan1 (civilYear n) := jan1_strictMono.monotone (by omega)
    omega

theorem yday_bounds (n : Int) : 0 ≤ ydayOf n ∧ ydayOf n ≤ 365 := by
  have h := jan1_le n
  have hg := jan1_gap (civilYear n)
  unfold ydayOf
  omega

theorem yday_step {n : Int} (h : 1 ≤ ydayOf n) :
    civilYear (n - 1) = civilYear n ∧ ydayOf (n - 1) = ydayOf n - 1 := by
  have hy := jan1_le n
  have huq : civilYear (n - 1) = civilYear n :=
    civilYear_unique (by unfold ydayOf at h; omega) (by omega)
  refine ⟨huq, ?_⟩
  unfold ydayOf
  rw [huq]
  omega

theorem yday_zero_back {n : Int} (h : ydayOf n = 0) :
    364 ≤ ydayOf (n - 1) ∧ ydayOf (n - 1) ≤ 365 ∧ civilYear (n - 1) = civilYear n - 1 := by
  have hy := jan1_le n
  have hg1 := jan1_gap (civilYear n - 1)
  have harg : civilYear n - 1 + 1 = civilYear n := by ring
  rw [harg] at hg1
  have hn : n = jan1 (civilYear n) := by unfold ydayOf at h; omega
  have huq : civilYear (n - 1) = civilYear n - 1 :=
    civilYear_unique (by omega) (by rw [harg]; omega)
  refine ⟨?_, ?_, huq⟩ <;> (unfold ydayOf; rw [huq]; omega)

theorem jan1_iff (n : Int) : (civilMonth n = 1 ∧ civilDay n = 1) ↔ ydayOf n = 0 := by
  constructor
  · rintro ⟨hm, hd⟩
    have hrt := civil_roundtrip n
    rw [hm, hd] at hrt
    have hj : jan1 (civilYear n) = n := hrt
    unfold ydayOf
    omega
  · intro h
    have hn : n = jan1 (civilYear n) := by unfold ydayOf at h; omega
    have hrt := civil_roundtrip n
    have hdb := civilDay_bounds n
    have hdoe := doeOf_bounds n
    have hdoy := doy_bounds hdoe.1 hdoe.2
    have hf := doy_facts hdoy.1 hdoy.2
    have hmp0 : 0 ≤ civilMp n := hf.2.2.1
    have hmp11 : civilMp n ≤ 11 := hf.2.2.2.1
    have hj1 : jan1 (civilYear n) = yearBase (civilYear n - 1) + 306 - 719468 := jan1_eq _
    have hgap := yearBase_gap (civilYear n - 1)
    have harg2 : civilYear n - 1 + 1 = civilYear n := by ring
    rw [harg2] at hgap
    by_cases hm : civilMp n < 10
    · have hmonth : civilMonth n = civilMp n + 3 := by unfold civilMonth; rw [if_pos hm]
      have hm2 : ¬ (civilMonth n ≤ 2) := by omega
      rw [dfc_eq, if_neg hm2, if_pos (by omega : 2 < civilMonth n), hmonth] at hrt
      have hmm : civilMp n + 3 - 3 = civilMp n := by ring
      rw [hmm] at hrt
      omega
    · have hmonth : civilMonth n = civilMp n - 9 := by unfold civilMonth; rw [if_neg hm]
      have hm2 : civilMonth n ≤ 2 := by omega
      rw [dfc_eq, if_pos hm2, if_neg (by omega : ¬ (2 < civilMonth n)), hmonth] at hrt
      have hmm : civilMp n - 9 + 9 = civilMp n := by ring
      rw [hmm] at hrt
      constructor
      · omega
      · omega

theorem yday_lin {n : Int} :
    ∀ j : Nat, (j : Int) ≤ ydayOf n → ydayOf (n - (j : Int)) = ydayOf n - j := by
  intro j
  induction j with
  | zero => intro _; simp
  | succ k ih =>
    intro hj
    have hk := ih (by push_cast at hj ⊢; omega)
    have h1 : 1 ≤ ydayOf (n - (k : Int)) := by
      rw [hk]; push_cast at hj ⊢; omega
    have := (yday_step h1).2
    rw [hk] at this
    have harg : n - ((k : Int) + 1) = n - (k : Int) - 1 := by ring
    push_cast
    rw [harg, this]
    ring

/-- Day index of January 1 of the year containing day `n`. -/
def yearStartIdx (n : Int) : Int := n - ydayOf n

theorem yearStartIdx_spec (n : Int) :
    ydayOf (yearStartIdx n) = 0 ∧ yearStartIdx n ≤ n := by
  have hb := yday_bounds n
  have hj : (((ydayOf n).toNat : Int)) = ydayOf n := by omega
  have := yday_lin (n := n) (ydayOf n).toNat (by omega)
  rw [hj] at this
  unfold yearStartIdx
  constructor
  · rw [this]; ring
  · omega

theorem yearStart_greatest {n k : Int} (hk : ydayOf k = 0) (hkn : k ≤ n) :
    k ≤ yearStartIdx n := by
  by_contra hc
  have hlt : yearStartIdx n < k := by omega
  have hb := yday_bounds n
  set j : Int := n - k with hjdef
  have hj0 : 0 ≤ j := by omega
  have hjb : j ≤ ydayOf n - 1 := by
    unfold yearStartIdx at hlt
    omega
  have hcast : ((j.toNat : Int)) = j := by omega
  have := yday_lin (n := n) j.toNat (by omega)
  rw [hcast] at this
  have hkn2 : n - j = k := by omega
  rw [hkn2] at this
  omega

theorem yearStartIdx_mono {a b : Int} (h : a ≤ b) : yearStartIdx a ≤ yearStartIdx b := by
  have hs := yearStartIdx_spec a
  exact yearStart_greatest hs.1 (le_trans hs.2 h)

theorem yearStartIdx_fix {n : Int} (h : ydayOf n = 0) : yearStartIdx n = n := by
  unfold yearStartIdx
  omega

/-!
Day layer at microsecond level.  `midnight k` is the unique instant whose
local wall clock reads 00:00 of local day `k`; `round_beginning_day` (the
program's two-pass DST correction) is proved to compute exactly
`midnight (dayIdx t)`.
-/

/-- Rounding to the beginning of the current hour: `ts.replace(minute=0,
second=0, microsecond=0)` on a whole-hour-offset aware datetime. -/
def round_beginning_hour (ts : Int) : Int := usH * (ts / usH)

/-- Rounding to the beginning of the current local day, mirroring
`DateTimeUtil.round_beginning_day`: round to the hour, subtract the local
hour, and apply a single ±1 hour DST correction if needed. -/
def round_beginning_day (ts : Int) : Int :=
  let t1 := round_beginning_hour ts
  let h1 := localHour t1
  if h1 = 0 then t1
  else
    let t2 := t1 - h1 * usH
    let h2 := localHour t2
    if h2 = 0 then t2
    else if h2 = 1 then t2 - usH
    else t2 + usH

/-- The instant of local midnight of local day `k`. -/
def midnight (k : Int) : Int :=
  if dstSpring ≤ k * usDay - 2 * usH ∧ k * usDay - 2 * usH < dstFall then
    k * usDay - 2 * usH
  else k * usDay - usH

theorem rbh_le (t : Int) : round_beginning_hour t ≤ t := by
  unfold round_beginning_hour usH; omega

theorem rbh_mod (t : Int) : round_beginning_hour t % usH = 0 := by
  unfold round_beginning_hour usH; omega

theorem rbh_idem (t : Int) :
    round_beginning_hour (round_beginning_hour t) = round_beginning_hour t := by
  unfold round_beginning_hour usH; omega

theorem rbh_mono {t u : Int} (h : t ≤ u) :
    round_beginning_hour t ≤ round_beginning_hour u := by
  unfold round_beginning_hour usH; omega

theorem rbh_fix {t : Int} (h : t % usH = 0) : round_beginning_hour t = t := by
  unfold usH at h
  unfold round_beginning_hour usH
  omega

theorem midnight_wall (k : Int) : wall (midnight k) = k * usDay := by
  unfold midnight wall utcOffset usH usDay dstSpring dstFall
  split_ifs <;> omega

theorem midnight_mono {k j : Int} (h : k ≤ j) : midnight k ≤ midnight j := by
  unfold midnight usH usDay dstSpring dstFall
  split_ifs <;> omega

theorem midnight_strict {k j : Int} (h : k < j) : midnight k < midnight j := by
  unfold midnight usH usDay dstSpring dstFall
  split_ifs <;> omega

theorem dayIdx_midnight (k : Int) : dayIdx (midnight k) = k := by
  have h := midnight_wall k
  unfold dayIdx
  rw [h]
  unfold usDay
  omega

theorem isDB_eq_midnight {t : Int} (h : wall t % usDay = 0) : t = midnight (dayIdx t) := by
  unfold wall utcOffset usH usDay dstSpring dstFall at h
  unfold midnight dayIdx wall utcOffset usH usDay dstSpring dstFall
  split_ifs at h ⊢ <;> omega

theorem midnight_le (t : Int) : midnight (dayIdx t) ≤ t := by
  unfold midnight dayIdx wall utcOffset usH usDay dstSpring dstFall
  split_ifs <;> omega

theorem dayIdx_mono {t u : Int} (h : t ≤ u) : dayIdx t ≤ dayIdx u := by
  unfold dayIdx wall utcOffset usH usDay dstSpring dstFall
  split_ifs <;> omega

theorem dayIdx_rbh (t : Int) : dayIdx (round_beginning_hour t) = dayIdx t := by
  unfold dayIdx wall utcOffset round_beginning_hour usH usDay dstSpring dstFall
  split_ifs <;> omega

theorem day_core {u : Int} (hu : u % usH = 0) :
    (if localHour u = 0 then u
     else if localHour (u - localHour u * usH) = 0 then u - localHour u * usH
     else if localHour (u - localHour u * usH) = 1 then u - localHour u * usH - usH
     else u - localHour u * usH + usH) = midnight (dayIdx u) := by
  unfold usH at hu
  unfold localHour midnight dayIdx wall utcOffset usH usDay dstSpring dstFall
  split_ifs <;> omega

theorem rbd_eq_mid (t : Int) : round_beginning_day t = midnight (dayIdx t) := by
  have hcore := day_core (rbh_mod t)
  have hd := dayIdx_rbh t
  rw [← hd]
  simp only [round_beginning_day]
  exact hcore

/-!
Week, month and year rounding.  Each steps back from local midnight by whole
days plus a 12-hour DST safety margin and re-rounds; each is proved equal to
the midnight of the corresponding period-start day index.
-/

/-- Rounding to the local Monday 00:00 of the current week, mirroring
`DateTimeUtil.round_beginning_week`. -/
def round_beginning_week (ts : Int) : Int :=
  let t1 := round_beginning_day ts
  let wd := weekdayOf t1
  if wd = 0 then t1
  else round_beginning_day (t1 - (24 * (wd - 1) + 12) * usH)

/-- Index of the Monday starting the week that contains local day `n`. -/
def mondayIdx (n : Int) : Int := n - (n + 3) % 7

/-- Rounding to local 00:00 of day 1 of the current month, mirroring
`DateTimeUtil.round_beginning_month`. -/
def round_beginning_month (ts : Int) : Int :=
  let t1 := round_beginning_day ts
  let d := civilDay (dayIdx t1)
  if d = 1 then t1
  else round_beginning_day (t1 - (24 * (d - 2) + 12) * usH)

/-- Rounding to local January 1 00:00 of the current year, mirroring
`DateTimeUtil.round_beginning_year`. -/
def round_beginning_year (ts : Int) : Int :=
  let t1 := round_beginning_day ts
  let n := dayIdx t1
  if civilMonth n = 1 ∧ civilDay n = 1 then t1
  else round_beginning_day (t1 - (24 * (ydayOf n - 1) + 12) * usH)

theorem dshift {k j r : Int} (h1 : 11 * usH ≤ r) (h2 : r ≤ 13 * usH) :
    dayIdx (midnight k - (j * usDay + r)) = k - j - 1 := by
  unfold usH at h1 h2
  unfold dayIdx wall utcOffset midnight usH usDay dstSpring dstFall
  split_ifs <;> omega

theorem dshift24 (k : Int) :
    dayIdx (midnight k - 24 * usH) = k - 1 ∨ dayIdx (midnight k - 24 * usH) = k - 2 := by
  unfold dayIdx wall utcOffset midnight usH usDay dstSpring dstFall
  split_ifs <;> omega

theorem rbw_eq_mid (t : Int) : round_beginning_week t = midnight (mondayIdx (dayIdx t)) := by
  simp only [round_beginning_week]
  rw [rbd_eq_mid t]
  have hw : weekdayOf (midnight (dayIdx t)) = (dayIdx t + 3) % 7 := by
    unfold weekdayOf
    rw [dayIdx_midnight]
  rw [hw]
  by_cases h0 : (dayIdx t + 3) % 7 = 0
  · rw [if_pos h0]
    have hmz : mondayIdx (dayIdx t) = dayIdx t := by unfold mondayIdx; omega
    rw [hmz]
  · rw [if_neg h0]
    have harg : midnight (dayIdx t) - (24 * ((dayIdx t + 3) % 7 - 1) + 12) * usH
        = midnight (dayIdx t) - (((dayIdx t + 3) % 7 - 1) * usDay + 12 * usH) := by
      unfold usH usDay
      ring
    rw [harg, rbd_eq_mid]
    rw [dshift (by unfold usH; omega) (by unfold usH; omega)]
    have hmz : dayIdx t - ((dayIdx t + 3) % 7 - 1) - 1 = mondayIdx (dayIdx t) := by
      unfold mondayIdx
      ring
    rw [hmz]

theorem rbm_eq_mid (t : Int) : round_beginning_month t = midnight (monthStartIdx (dayIdx t)) := by
  simp only [round_beginning_month]
  rw [rbd_eq_mid t]
  rw [dayIdx_midnight]
  by_cases h0 : civilDay (dayIdx t) = 1
  · rw [if_pos h0, monthStartIdx_fix h0]
  · rw [if_neg h0]
    have hb := civilDay_bounds (dayIdx t)
    have harg : midnight (dayIdx t) - (24 * (civilDay (dayIdx t) - 2) + 12) * usH
        = midnight (dayIdx t) - ((civilDay (dayIdx t) - 2) * usDay + 12 * usH) := by
      unfold usH usDay
      ring
    rw [harg, rbd_eq_mid]
    rw [dshift (by unfold usH; omega) (by unfold usH; omega)]
    have hmz : dayIdx t - (civilDay (dayIdx t) - 2) - 1 = monthStartIdx (dayIdx t) := by
      unfold monthStartIdx
      ring
    rw [hmz]

theorem rby_eq_mid (t : Int) : round_beginning_year t = midnight (yearStartIdx (dayIdx t)) := by
  simp only [round_beginning_year]
  rw [rbd_eq_mid t]
  rw [dayIdx_midnight]
  by_cases h0 : civilMonth (dayIdx t) = 1 ∧ civilDay (dayIdx t) = 1
  · rw [if_pos h0]
    have hz : ydayOf (dayIdx t) = 0 := (jan1_iff (dayIdx t)).mp h0
    rw [yearStartIdx_fix hz]
  · rw [if_neg h0]
    have hz : ¬ ydayOf (dayIdx t) = 0 := fun hc => h0 ((jan1_iff (dayIdx t)).mpr hc)
    have hb := yday_bounds (dayIdx t)
    have harg : midnight (dayIdx t) - (24 * (ydayOf (dayIdx t) - 1) + 12) * usH
        = midnight (dayIdx t) - ((ydayOf (dayIdx t) - 1) * usDay + 12 * usH) := by
      unfold usH usDay
      ring
    rw [harg, rbd_eq_mid]
    rw [dshift (by unfold usH; omega) (by unfold usH; omega)]
    have hmz : dayIdx t - (ydayOf (dayIdx t) - 1) - 1 = yearStartIdx (dayIdx t) := by
      unfold yearStartIdx
      ring
    rw [hmz]

/-!
Granularities, the roundDown dispatcher, previous-boundary functions and the
exact-boundary predicates they test.
-/

/-- Snapshot period granularity, the program's `PERIOD_KEYS`. -/
inductive Period where
  | hourly
  | daily
  | weekly
  | monthly
  | yearly
deriving DecidableEq

/-- Dispatcher over the five `round_beginning_*` functions. -/
def roundDown : Period → Int → Int
  | .hourly, ts => round_beginning_hour ts
  | .daily, ts => round_beginning_day ts
  | .weekly, ts => round_beginning_week ts
  | .monthly, ts => round_beginning_month ts
  | .yearly, ts => round_beginning_year ts

/-- Previous hour boundary, mirroring `DateTimeUtil.prev_hour`. -/
def prev_hour (ts : Int) : Int :=
  if ts % usH ≠ 0 then round_beginning_hour ts else ts - usH

/-- Previous day boundary, mirroring `DateTimeUtil.prev_day`. -/
def prev_day (ts : Int) : Int :=
  if wall ts % usDay ≠ 0 then round_beginning_day ts
  else round_beginning_day (ts - 12 * usH)

/-- Previous week boundary, mirroring `DateTimeUtil.prev_week`. -/
def prev_week (ts : Int) : Int :=
  if ¬ (weekdayOf ts = 0 ∧ wall ts % usDay = 0) then round_beginning_week ts
  else round_beginning_week (ts - 24 * usH)

/-- Previous month boundary, mirroring `DateTimeUtil.prev_month`. -/
def prev_month (ts : Int) : Int :=
  if ¬ (civilDay (dayIdx ts) = 1 ∧ wall ts % usDay = 0) then round_beginning_month ts
  else round_beginning_month (ts - 24 * usH)

/-- Previous year boundary, mirroring `DateTimeUtil.prev_year`. -/
def prev_year (ts : Int) : Int :=
  if ¬ (civilMonth (dayIdx ts) = 1 ∧ civilDay (dayIdx ts) = 1 ∧ wall ts % usDay = 0) then
    round_beginning_year ts
  else round_beginning_year (ts - 24 * usH)

/-- Dispatcher over the five `prev_*` functions, the program's
`DateTimeUtil.prev_period`. -/
def prev_period : Period → Int → Int
  | .hourly, ts => prev_hour ts
  | .daily, ts => prev_day ts
  | .weekly, ts => prev_week ts
  | .monthly, ts => prev_month ts
  | .yearly, ts => prev_year ts

/-- Instant `t` sits exactly on a boundary of granularity `g`: every local
field that `g`-rounding would zero is already zero (the tests performed by the
`prev_*` functions before stepping back). -/
def onBoundary : Period → Int → Prop
  | .hourly, ts => ts % usH = 0
  | .daily, ts => wall ts % usDay = 0
  | .weekly, ts => weekdayOf ts = 0 ∧ wall ts % usDay = 0
  | .monthly, ts => civilDay (dayIdx ts) = 1 ∧ wall ts % usDay = 0
  | .yearly, ts =>
      civilMonth (dayIdx ts) = 1 ∧ civilDay (dayIdx ts) = 1 ∧ wall ts % usDay = 0

theorem roundDown_idem (g : Period) (t : Int) :
    roundDown g (roundDown g t) = roundDown g t := by
  cases g with
  | hourly => exact rbh_idem t
  | daily =>
    show round_beginning_day (round_beginning_day t) = round_beginning_day t
    rw [rbd_eq_mid t, rbd_eq_mid (midnight (dayIdx t)), dayIdx_midnight]
  | weekly =>
    show round_beginning_week (round_beginning_week t) = round_beginning_week t
    rw [rbw_eq_mid t, rbw_eq_mid (midnight (mondayIdx (dayIdx t))), dayIdx_midnight]
    have hmm : mondayIdx (mondayIdx (dayIdx t)) = mondayIdx (dayIdx t) := by
      unfold mondayIdx
      omega
    rw [hmm]
  | monthly =>
    show round_beginning_month (round_beginning_month t) = round_beginning_month t
    rw [rbm_eq_mid t, rbm_eq_mid (midnight (monthStartIdx (dayIdx t))), dayIdx_midnight]
    rw [monthStartIdx_fix (monthStartIdx_spec (dayIdx t)).1]
  | yearly =>
    show round_beginning_year (round_beginning_year t) = round_beginning_year t
    rw [rby_eq_mid t, rby_eq_mid (midnight (yearStartIdx (dayIdx t))), dayIdx_midnight]
    rw [yearStartIdx_fix (yearStartIdx_spec (dayIdx t)).1]

theorem mondayIdx_mono {a b : Int} (h : a ≤ b) : mondayIdx a ≤ mondayIdx b := by
  unfold mondayIdx
  omega

theorem roundDown_mono (g : Period) {t u : Int} (h : t ≤ u) :
    roundDown g t ≤ roundDown g u := by
  cases g with
  | hourly => exact rbh_mono h
  | daily =>
    show round_beginning_day t ≤ round_beginning_day u
    rw [rbd_eq_mid t, rbd_eq_mid u]
    exact midnight_mono (dayIdx_mono h)
  | weekly =>
    show round_beginning_week t ≤ round_beginning_week u
    rw [rbw_eq_mid t, rbw_eq_mid u]
    exact midnight_mono (mondayIdx_mono (dayIdx_mono h))
  | monthly =>
    show round_beginning_month t ≤ round_beginning_month u
    rw [rbm_eq_mid t, rbm_eq_mid u]
    exact midnight_mono (monthStartIdx_mono (dayIdx_mono h))
  | yearly =>
    show round_beginning_year t ≤ round_beginning_year u
    rw [rby_eq_mid t, rby_eq_mid u]
    exact midnight_mono (yearStartIdx_mono (dayIdx_mono h))

/-- Claim C1: for every granularity in {Hour, Day, Week, Month, Year} and
every instant, roundDown is idempotent, and it is monotone non-decreasing in
the instant — over a model zone containing both a spring-forward and a
fall-back one-hour DST transition, hence in particular at instants on either
side of those transitions. -/
theorem claim1_roundDown_idem_mono :
    ∀ g : Period, (∀ t : Int, roundDown g (roundDown g t) = roundDown g t) ∧
      (∀ t1 t2 : Int, t1 ≤ t2 → roundDown g t1 ≤ roundDown g t2) :=
  fun g => ⟨fun t => roundDown_idem g t, fun _ _ h => roundDown_mono g h⟩

/-- Witness for C1 at concrete instants around the fall-back transition. -/
theorem claim1_witness :
    roundDown .daily (roundDown .daily 1572138000000000) = roundDown .daily 1572138000000000 ∧
    roundDown .monthly 1553994000000000 ≤ roundDown .monthly 1572138000000000 :=
  ⟨(claim1_roundDown_idem_mono .daily).1 1572138000000000,
   (claim1_roundDown_idem_mono .monthly).2 1553994000000000 1572138000000000 (by decide)⟩

/-!
Previous-boundary correctness (claim C2): off a boundary, the `prev_*`
functions coincide with roundDown; on a boundary they produce the immediately
preceding boundary.
-/

theorem roundDown_fix {g : Period} {t : Int} (h : onBoundary g t) : roundDown g t = t := by
  cases g with
  | hourly => exact rbh_fix h
  | daily =>
    show round_beginning_day t = t
    rw [rbd_eq_mid t]
    exact (isDB_eq_midnight h).symm
  | weekly =>
    show round_beginning_week t = t
    rw [rbw_eq_mid t]
    have hwd : (dayIdx t + 3) % 7 = 0 := h.1
    have hmz : mondayIdx (dayIdx t) = dayIdx t := by unfold mondayIdx; omega
    rw [hmz]
    exact (isDB_eq_midnight h.2).symm
  | monthly =>
    show round_beginning_month t = t
    rw [rbm_eq_mid t, monthStartIdx_fix h.1]
    exact (isDB_eq_midnight h.2).symm
  | yearly =>
    show round_beginning_year t = t
    rw [rby_eq_mid t, yearStartIdx_fix ((jan1_iff (dayIdx t)).mp ⟨h.1, h.2.1⟩)]
    exact (isDB_eq_midnight h.2.2).symm

theorem prev_off {g : Period} {t : Int} (h : ¬ onBoundary g t) :
    prev_period g t = roundDown g t := by
  cases g with
  | hourly => exact if_pos h
  | daily => exact if_pos h
  | weekly => exact if_pos h
  | monthly => exact if_pos h
  | yearly => exact if_pos h

theorem prev_on_day {t : Int} (h : wall t % usDay = 0) :
    prev_day t = midnight (dayIdx t - 1) := by
  unfold prev_day
  rw [if_neg (fun hc => hc h), rbd_eq_mid]
  have ht := isDB_eq_midnight h
  set k := dayIdx t with hk
  rw [ht]
  have harg : midnight k - 12 * usH = midnight k - (0 * usDay + 12 * usH) := by ring
  rw [harg, dshift (by unfold usH; omega) (by unfold usH; omega)]
  norm_num

theorem prev_on_week {t : Int} (h : weekdayOf t = 0 ∧ wall t % usDay = 0) :
    prev_week t = midnight (dayIdx t - 7) := by
  unfold prev_week
  rw [if_neg (fun hc => hc h), rbw_eq_mid]
  have ht := isDB_eq_midnight h.2
  have hwd : (dayIdx t + 3) % 7 = 0 := h.1
  set k := dayIdx t with hk
  rw [ht]
  rcases dshift24 k with h1 | h1 <;> rw [h1]
  · have hmz : mondayIdx (k - 1) = k - 7 := by unfold mondayIdx; omega
    rw [hmz]
  · have hmz : mondayIdx (k - 2) = k - 7 := by unfold mondayIdx; omega
    rw [hmz]

theorem prev_on_month {t : Int} (h : civilDay (dayIdx t) = 1 ∧ wall t % usDay = 0) :
    prev_month t = midnight (monthStartIdx (dayIdx t - 1)) := by
  unfold prev_month
  rw [if_neg (fun hc => hc h), rbm_eq_mid]
  have ht := isDB_eq_midnight h.2
  have hback := civilDay_back h.1
  set k := dayIdx t with hk
  rw [ht]
  rcases dshift24 k with h1 | h1 <;> rw [h1]
  have hstep : civilDay (k - 1 - 1) = civilDay (k - 1) - 1 := civilDay_step (by omega)
  have hmz : monthStartIdx (k - 2) = monthStartIdx (k - 1) := by
    unfold monthStartIdx
    have harg : k - 1 - 1 = k - 2 := by ring
    rw [harg] at hstep
    omega
  rw [hmz]

theorem prev_on_year {t : Int}
    (h : civilMonth (dayIdx t) = 1 ∧ civilDay (dayIdx t) = 1 ∧ wall t % usDay = 0) :
    prev_year t = midnight (yearStartIdx (dayIdx t - 1)) := by
  unfold prev_year
  rw [if_neg (fun hc => hc h), rby_eq_mid]
  have ht := isDB_eq_midnight h.2.2
  have hz : ydayOf (dayIdx t) = 0 := (jan1_iff (dayIdx t)).mp ⟨h.1, h.2.1⟩
  have hback := yday_zero_back hz
  set k := dayIdx t with hk
  rw [ht]
  rcases dshift24 k with h1 | h1 <;> rw [h1]
  have hstep := yday_step (n := k - 1) (by omega)
  have hmz : yearStartIdx (k - 2) = yearStartIdx (k - 1) := by
    unfold yearStartIdx
    have harg : k - 1 - 1 = k - 2 := by ring
    rw [harg] at hstep
    omega
  rw [hmz]

theorem onB_le_pred {m k : Int} (hm : wall m % usDay = 0) (hlt : m < midnight k) :
    dayIdx m ≤ k - 1 := by
  by_contra hc
  have hmono := midnight_mono (show k ≤ dayIdx m by omega)
  have hme := isDB_eq_midnight hm
  omega

theorem midnight_onB_day (k : Int) : wall (midnight k) % usDay = 0 := by
  rw [midnight_wall]
  unfold usDay
  omega

theorem prev_boundary_spec :
    ∀ (g : Period) (t : Int),
      (¬ onBoundary g t → prev_period g t = roundDown g t) ∧
      (onBoundary g t → prev_period g t < roundDown g t ∧ onBoundary g (prev_period g t) ∧
        ∀ m : Int, onBoundary g m → m < roundDown g t → m ≤ prev_period g t) := by
  intro g t
  refine ⟨fun h => prev_off h, fun h => ?_⟩
  have hfix := roundDown_fix h
  cases g with
  | hourly =>
    have hp : prev_period .hourly t = t - usH := by
      show prev_hour t = t - usH
      unfold prev_hour
      rw [if_neg (fun hc => hc h)]
    rw [hp, hfix]
    have husH : (0 : Int) < usH := by unfold usH; omega
    refine ⟨by omega, ?_, ?_⟩
    · show (t - usH) % usH = 0
      have hh : t % usH = 0 := h
      unfold usH at hh ⊢
      omega
    · intro m hm hmt
      have hh : t % usH = 0 := h
      have hmm : m % usH = 0 := hm
      unfold usH at hh hmm ⊢
      omega
  | daily =>
    have hp : prev_period .daily t = midnight (dayIdx t - 1) := prev_on_day h
    have ht := isDB_eq_midnight h
    rw [hp, hfix]
    refine ⟨?_, ?_, ?_⟩
    · have := midnight_strict (show dayIdx t - 1 < dayIdx t by omega)
      omega
    · exact midnight_onB_day (dayIdx t - 1)
    · intro m hm hmt
      rw [ht] at hmt
      have hle := onB_le_pred hm hmt
      have := midnight_mono hle
      have hme := isDB_eq_midnight hm
      omega
  | weekly =>
    have hp : prev_period .weekly t = midnight (dayIdx t - 7) := prev_on_week h
    have ht := isDB_eq_midnight h.2
    have hwd : (dayIdx t + 3) % 7 = 0 := h.1
    rw [hp, hfix]
    refine ⟨?_, ⟨?_, ?_⟩, ?_⟩
    · have := midnight_strict (show dayIdx t - 7 < dayIdx t by omega)
      omega
    · show (dayIdx (midnight (dayIdx t - 7)) + 3) % 7 = 0
      rw [dayIdx_midnight]
      omega
    · exact midnight_onB_day (dayIdx t - 7)
    · intro m hm hmt
      rw [ht] at hmt
      have hle := onB_le_pred hm.2 hmt
      have hwm : (dayIdx m + 3) % 7 = 0 := hm.1
      have hle7 : dayIdx m ≤ dayIdx t - 7 := by omega
      have := midnight_mono hle7
      have hme := isDB_eq_midnight hm.2
      omega
  | monthly =>
    have hp : prev_period .monthly t = midnight (monthStartIdx (dayIdx t - 1)) := prev_on_month h
    have ht := isDB_eq_midnight h.2
    have hspec := monthStartIdx_spec (dayIdx t - 1)
    rw [hp, hfix]
    refine ⟨?_, ⟨?_, ?_⟩, ?_⟩
    · have := midnight_strict (show monthStartIdx (dayIdx t - 1) < dayIdx t by omega)
      omega
    · show civilDay (dayIdx (midnight (monthStartIdx (dayIdx t - 1)))) = 1
      rw [dayIdx_midnight]
      exact hspec.1
    · exact midnight_onB_day _
    · intro m hm hmt
      rw [ht] at hmt
      have hle := onB_le_pred hm.2 hmt
      have hg := monthStart_greatest hm.1 hle
      have := midnight_mono hg
      have hme := isDB_eq_midnight hm.2
      omega
  | yearly =>
    have hp : prev_period .yearly t = midnight (yearStartIdx (dayIdx t - 1)) := prev_on_year h
    have ht := isDB_eq_midnight h.2.2
    have hspec := yearStartIdx_spec (dayIdx t - 1)
    have hjan := (jan1_iff (yearStartIdx (dayIdx t - 1))).mpr hspec.1
    rw [hp, hfix]
    refine ⟨?_, ⟨?_, ?_, ?_⟩, ?_⟩
    · have := midnight_strict (show yearStartIdx (dayIdx t - 1) < dayIdx t by omega)
      omega
    · show civilMonth (dayIdx (midnight (yearStartIdx (dayIdx t - 1)))) = 1
      rw [dayIdx_midnight]
      exact hjan.1
    · show civilDay (dayIdx (midnight (yearStartIdx (dayIdx t - 1)))) = 1
      rw [dayIdx_midnight]
      exact hjan.2
    · exact midnight_onB_day _
    · intro m hm hmt
      rw [ht] at hmt
      have hle := onB_le_pred hm.2.2 hmt
      have hzm : ydayOf (dayIdx m) = 0 := (jan1_iff (dayIdx m)).mp ⟨hm.1, hm.2.1⟩
      have hg := yearStart_greatest hzm hle
      have := midnight_mono hg
      have hme := isDB_eq_midnight hm.2.2
      omega

/-- Claim C2: if `t` is exactly on a `g` boundary then `prev(g, t)` is a
boundary strictly earlier than `roundDown(g, t)` and the greatest such
boundary; otherwise `prev(g, t)` equals `roundDown(g, t)`. -/
theorem claim2_prev_boundary :
    ∀ (g : Period) (t : Int),
      (¬ onBoundary g t → prev_period g t = roundDown g t) ∧
      (onBoundary g t → prev_period g t < roundDown g t ∧ onBoundary g (prev_period g t) ∧
        ∀ m : Int, onBoundary g m → m < roundDown g t → m ≤ prev_period g t) :=
  prev_boundary_spec

/-- Witness for C2: an instant off the hour boundary and one exactly on a day
boundary (local midnight 2019-12-26, i.e. 2019-12-25T23:00Z). -/
theorem claim2_witness :
    prev_period .hourly 1577368896123456 = roundDown .hourly 1577368896123456 ∧
    prev_period .daily 1577314800000000 < roundDown .daily 1577314800000000 :=
  ⟨(claim2_prev_boundary .hourly 1577368896123456).1
     (by show ¬ (1577368896123456 : Int) % usH = 0; decide),
   ((claim2_prev_boundary .daily 1577314800000000).2
     (by show wall 1577314800000000 % usDay = 0; decide)).1⟩

/-!
Snapshot records and the snapshot index.  A record stores its creation
instant, the hour-aligned key computed at construction, and the retention
flag.  The collection is modelled as a list; sorting is the stable sort by
key that `list.sort(key=...)` performs, and the window query is
`bisect.bisect_left` on the sorted list.
-/

/-- An existing snapshot: creation instant, hour-aligned sort key and
retention flag, mirroring the fields set by `ExistingSnapshot.__init__`. -/
structure ExistingSnapshot where
  ts : Int
  key : Int
  is_kept : Bool
deriving DecidableEq

/-- Construction from a creation instant: the key is the instant rounded to
the beginning of its hour and the flag starts false. -/
def mkSnapshot (ts : Int) : ExistingSnapshot :=
  { ts := ts, key := round_beginning_hour ts, is_kept := false }

/-- Mark a snapshot as kept, mirroring `ExistingSnapshot.keep`. -/
def keep (s : ExistingSnapshot) : ExistingSnapshot :=
  { s with is_kept := true }

/-- Record comparison used by sort and bisect: only the hour-aligned key is
compared, mirroring `ExistingSnapshot.__lt__` and `__eq__`. -/
def keyLE (a b : ExistingSnapshot) : Prop := a.key ≤ b.key

instance : DecidableRel keyLE := fun a b => Int.decLe a.key b.key

instance : IsTotal ExistingSnapshot keyLE := ⟨fun a b => Int.le_total a.key b.key⟩

instance : IsTrans ExistingSnapshot keyLE := ⟨fun _ _ _ hab hbc => le_trans hab hbc⟩

/-- The collection sorted by key (stable, as Python's list.sort). -/
def sortColl (l : List ExistingSnapshot) : List ExistingSnapshot :=
  List.insertionSort keyLE l

/-- Python's `bisect.bisect_left(collection, probe)` with key comparison, on
a key-sorted list: the number of leading records whose key is below `k`. -/
def bisectLeft (l : List ExistingSnapshot) (k : Int) : Nat :=
  (l.takeWhile (fun s => decide (s.key < k))).length

/-- Core of the window query on an already sorted list with an already
hour-aligned probe key. -/
def findCore (sl : List ExistingSnapshot) (bk e : Int) : Option ExistingSnapshot :=
  match sl.drop (bisectLeft sl bk) with
  | [] => none
  | s :: _ => if s.key < e then some s else none

/-- Window query mirroring `ExistingSnapshotsCollection.find_oldest_in_window`:
sort, bisect with a probe record built from `begin` (whose key is
`round_beginning_hour begin`), and return the found record if its key is
below `e`. -/
def find_oldest_in_window (l : List ExistingSnapshot) (b e : Int) : Option ExistingSnapshot :=
  findCore (sortColl l) (round_beginning_hour b) e

/-- Marking loop of `ExistingSnapshotsCollection.mark_period` on the sorted
collection, with an explicit fuel bound on the number of iterations. -/
def markGo (p : Period) : Nat → List ExistingSnapshot → Int → Nat → List ExistingSnapshot
  | 0, sl, _, _ => sl
  | fuel + 1, sl, e, nb =>
    match sl, nb with
    | [], _ => sl
    | _ :: _, 0 => sl
    | s0 :: rest, nb' + 1 =>
      if s0.ts ≤ e then
        match (s0 :: rest)[bisectLeft (s0 :: rest) (round_beginning_hour (prev_period p e))]? with
        | some s =>
          if s.key < e then
            markGo p fuel
              ((s0 :: rest).set (bisectLeft (s0 :: rest) (round_beginning_hour (prev_period p e)))
                (keep s))
              (prev_period p e) nb'
          else markGo p fuel (s0 :: rest) (prev_period p e) (nb' + 1)
        | none => markGo p fuel (s0 :: rest) (prev_period p e) (nb' + 1)
      else s0 :: rest

/-- Fuel sufficient for the marking loop: the span from the earliest record
to `e`, in microseconds, plus one. -/
def markFuel (sl : List ExistingSnapshot) (e : Int) : Nat :=
  match sl with
  | [] => 0
  | s0 :: _ => (e - s0.ts + 1).toNat

/-- Retention marking pass mirroring `ExistingSnapshotsCollection.mark_period`:
sort, then walk windows backward from `now`, keeping the oldest record of
each populated window until `nb` records have been kept or history runs out. -/
def mark_period (l : List ExistingSnapshot) (now : Int) (p : Period) (nb : Nat) :
    List ExistingSnapshot :=
  markGo p (markFuel (sortColl l) now) (sortColl l) now nb

/-- Mirrors `ExistingSnapshotsCollection.has_snapshop_in_last_period`. -/
def has_snapshop_in_last_period (l : List ExistingSnapshot) (now : Int) (p : Period) : Bool :=
  (find_oldest_in_window l (prev_period p now) now).isSome

/-- The program's `PERIOD_KEYS`, in order. -/
def periodKeys : List Period := [.hourly, .daily, .weekly, .monthly, .yearly]

/-- The due test performed by `main`: not all enabled granularities already
have a snapshot in their last period. -/
def is_snapshot_due (l : List ExistingSnapshot) (now : Int) (cfg : Period → Option Nat) :
    Bool :=
  ! (periodKeys.filter (fun p => decide (0 < (cfg p).getD 0))).all
      (fun p => has_snapshop_in_last_period l now p)

/-- The marking phase of `main`: `mark_period` for every period present in the
configuration, in `PERIOD_KEYS` order. -/
def plan_retention (l : List ExistingSnapshot) (now : Int) (cfg : Period → Option Nat) :
    List ExistingSnapshot :=
  periodKeys.foldl
    (fun acc p =>
      match cfg p with
      | none => acc
      | some c => mark_period acc now p c) l

/-- Microseconds since the epoch of a UTC civil time, used to write concrete
timestamps readably. -/
def utcTs (y m d h mi s : Int) : Int :=
  (daysFromCivil y m d * 86400 + h * 3600 + mi * 60 + s) * 1000000

theorem sortColl_sorted (l : List ExistingSnapshot) : List.Sorted keyLE (sortColl l) :=
  List.sorted_insertionSort keyLE l

theorem sortColl_perm (l : List ExistingSnapshot) : (sortColl l).Perm l :=
  List.perm_insertionSort keyLE l

theorem drop_takeWhile_length (p : ExistingSnapshot → Bool) :
    ∀ l : List ExistingSnapshot, l.drop (l.takeWhile p).length = l.dropWhile p := by
  intro l
  induction l with
  | nil => rfl
  | cons a l ih =>
    by_cases h : p a = true
    · simp [List.takeWhile_cons, List.dropWhile_cons, h, ih]
    · simp [List.takeWhile_cons, List.dropWhile_cons, h]

theorem findCore_dw (sl : List ExistingSnapshot) (bk e : Int) :
    findCore sl bk e =
      match sl.dropWhile (fun s => decide (s.key < bk)) with
      | [] => none
      | s :: _ => if s.key < e then some s else none := by
  unfold findCore bisectLeft
  rw [drop_takeWhile_length]

theorem findCore_some {bk e : Int} :
    ∀ sl : List ExistingSnapshot, List.Sorted keyLE sl →
      ∀ s, findCore sl bk e = some s →
        s ∈ sl ∧ bk ≤ s.key ∧ s.key < e ∧
          ∀ u ∈ sl, bk ≤ u.key → u.key < e → s.key ≤ u.key := by
  intro sl
  induction sl with
  | nil => intro _ s h; exact absurd h (by rw [findCore_dw]; simp)
  | cons a l ih =>
    intro hs s h
    rw [List.sorted_cons] at hs
    rw [findCore_dw, List.dropWhile_cons] at h
    by_cases hc : a.key < bk
    · rw [if_pos (by simpa using hc), ← findCore_dw] at h
      have hl := ih hs.2 s h
      refine ⟨List.mem_cons_of_mem a hl.1, hl.2.1, hl.2.2.1, ?_⟩
      intro u hu hbu hue
      rcases List.mem_cons.mp hu with rfl | hu2
      · omega
      · exact hl.2.2.2 u hu2 hbu hue
    · rw [if_neg (by simpa using hc)] at h
      have h2 : (if a.key < e then some a else none) = some s := h
      by_cases he : a.key < e
      · rw [if_pos he] at h2
        obtain rfl : a = s := by injection h2
        refine ⟨List.mem_cons_self a l, by omega, he, ?_⟩
        intro u hu _ _
        rcases List.mem_cons.mp hu with rfl | hu2
        · exact le_refl _
        · exact hs.1 u hu2
      · rw [if_neg he] at h2
        exact absurd h2 (by simp)

theorem findCore_none {bk e : Int} :
    ∀ sl : List ExistingSnapshot, List.Sorted keyLE sl →
      findCore sl bk e = none → ∀ u ∈ sl, ¬ (bk ≤ u.key ∧ u.key < e) := by
  intro sl
  induction sl with
  | nil => intro _ _ u hu; exact absurd hu (by simp)
  | cons a l ih =>
    intro hs h u hu
    rw [List.sorted_cons] at hs
    rw [findCore_dw, List.dropWhile_cons] at h
    by_cases hc : a.key < bk
    · rw [if_pos (by simpa using hc), ← findCore_dw] at h
      rcases List.mem_cons.mp hu with rfl | hu2
      · omega
      · exact ih hs.2 h u hu2
    · rw [if_neg (by simpa using hc)] at h
      have h2 : (if a.key < e then some a else none) = none := h
      by_cases he : a.key < e
      · rw [if_pos he] at h2
        exact absurd h2 (by simp)
      · rcases List.mem_cons.mp hu with rfl | hu2
        · omega
        · have := hs.1 u hu2
          unfold keyLE at this
          omega

/-!
Claim C3 (amended): the window query on an hour-aligned `begin` returns the
record with the smallest key in `[begin, end)`, or none when no record
qualifies.  On a non-aligned `begin` the probe key is rounded down, so a
record with key below `begin` can be returned (counterexample).
-/

theorem find_oldest_spec :
    ∀ (l : List ExistingSnapshot) (b e : Int), round_beginning_hour b = b →
      (∀ s, find_oldest_in_window l b e = some s →
        s ∈ l ∧ b ≤ s.key ∧ s.key < e ∧ ∀ u ∈ l, b ≤ u.key → u.key < e → s.key ≤ u.key) ∧
      (find_oldest_in_window l b e = none → ∀ u ∈ l, ¬ (b ≤ u.key ∧ u.key < e)) := by
  intro l b e hb
  have hperm := sortColl_perm l
  constructor
  · intro s h
    unfold find_oldest_in_window at h
    rw [hb] at h
    have hspec := findCore_some (sortColl l) (sortColl_sorted l) s h
    exact ⟨hperm.mem_iff.mp hspec.1, hspec.2.1, hspec.2.2.1,
      fun u hu h1 h2 => hspec.2.2.2 u (hperm.mem_iff.mpr hu) h1 h2⟩
  · intro h u hu
    unfold find_oldest_in_window at h
    rw [hb] at h
    exact findCore_none (sortColl l) (sortColl_sorted l) h u (hperm.mem_iff.mpr hu)

/-- Claim C3, amended with the hour-alignment premise on `begin`: the query
returns the record with the smallest boundary key in `[begin, end)`, and
none (also on the empty index) when no record's key lies in the window. -/
theorem claim3_find_oldest_spec :
    ∀ (l : List ExistingSnapshot) (b e : Int), round_beginning_hour b = b →
      (∀ s, find_oldest_in_window l b e = some s →
        s ∈ l ∧ b ≤ s.key ∧ s.key < e ∧ ∀ u ∈ l, b ≤ u.key → u.key < e → s.key ≤ u.key) ∧
      (find_oldest_in_window l b e = none → ∀ u ∈ l, ¬ (b ≤ u.key ∧ u.key < e)) :=
  find_oldest_spec

/-- Counterexample to claim C3 as stated: with `begin` = 10:30 (not on an
hour boundary), the query returns the record keyed 10:00, although no
record's key lies in `[begin, end)`. -/
theorem claim3_counterexample :
    find_oldest_in_window [mkSnapshot (utcTs 2019 12 26 10 5 0)]
        (utcTs 2019 12 26 10 30 0) (utcTs 2019 12 26 11 0 0)
      = some (mkSnapshot (utcTs 2019 12 26 10 5 0)) ∧
    (mkSnapshot (utcTs 2019 12 26 10 5 0)).key < utcTs 2019 12 26 10 30 0 := by
  constructor <;> decide

/-- Witness for the amended C3 at a concrete aligned window. -/
theorem claim3_witness :
    utcTs 2019 12 26 10 0 0 ≤ (mkSnapshot (utcTs 2019 12 26 10 20 0)).key :=
  ((claim3_find_oldest_spec [mkSnapshot (utcTs 2019 12 26 10 20 0)]
      (utcTs 2019 12 26 10 0 0) (utcTs 2019 12 26 11 0 0) (by decide)).1
      (mkSnapshot (utcTs 2019 12 26 10 20 0)) (by decide)).2.1

/-!
Claim C8: the concrete seven-snapshot window queries.  The stored keys are
the +0100 stamps rounded to their hour and converted to absolute instants,
one hour earlier than the values quoted in the claim.
-/

/-- The seven snapshots of the window-query scenario, stamped +0100. -/
def snapList8 : List ExistingSnapshot :=
  [mkSnapshot (utcTs 2019 12 26 15 2 42 - 3600000000),
   mkSnapshot (utcTs 2019 12 26 13 0 24 - 3600000000),
   mkSnapshot (utcTs 2019 12 24 2 47 42 - 3600000000),
   mkSnapshot (utcTs 2019 12 25 11 3 32 - 3600000000),
   mkSnapshot (utcTs 2019 12 1 7 52 42 - 3600000000),
   mkSnapshot (utcTs 2019 12 26 14 1 17 - 3600000000),
   mkSnapshot (utcTs 2019 11 7 8 2 42 - 3600000000)]

/-- Counterexample to claim C8 as stated: the record returned for the window
[2019-12-26T00:00Z, 2019-12-26T15:00Z) has boundary key 2019-12-26T12:00Z,
not 2019-12-26T14:00Z. -/
theorem claim8_counterexample :
    (find_oldest_in_window snapList8 (utcTs 2019 12 26 0 0 0)
        (utcTs 2019 12 26 15 0 0)).map (fun s => s.key)
      = some (utcTs 2019 12 26 12 0 0) ∧
    utcTs 2019 12 26 12 0 0 ≠ utcTs 2019 12 26 14 0 0 := by
  constructor <;> decide

/-- Claim C8, amended: the first query returns the snapshot stamped
2019-12-26 13:00:24 +0100 (absolute 12:00:24Z, boundary key 12:00Z), the
smallest key at or after `begin`; the second query returns none. -/
theorem claim8_amended :
    (find_oldest_in_window snapList8 (utcTs 2019 12 26 0 0 0)
        (utcTs 2019 12 26 15 0 0)).map (fun s => s.ts)
      = some (utcTs 2019 12 26 13 0 24 - 3600000000) ∧
    (find_oldest_in_window snapList8 (utcTs 2019 12 26 0 0 0)
        (utcTs 2019 12 26 15 0 0)).map (fun s => s.key)
      = some (utcTs 2019 12 26 12 0 0) ∧
    find_oldest_in_window snapList8 (utcTs 2019 12 26 0 0 0)
        (utcTs 2019 12 26 12 0 0) = none := by
  refine ⟨by decide, by decide, by decide⟩

/-!
Claim C10: ordering, sorting and searching compare only the hour-aligned
boundary key; among records sharing a key the stable sort keeps insertion
order, so the query can return a record that is not the one with the
smallest raw instant in the window.
-/

/-- Claim C10: comparison is by key only, and on two same-hour snapshots
inserted newest-first the query returns the first-inserted (larger-instant)
record. -/
theorem claim10_stable_tie :
    (∀ a b : ExistingSnapshot, keyLE a b ↔ a.key ≤ b.key) ∧
    (mkSnapshot (utcTs 2019 12 26 10 40 0)).key = (mkSnapshot (utcTs 2019 12 26 10 5 0)).key ∧
    sortColl [mkSnapshot (utcTs 2019 12 26 10 40 0), mkSnapshot (utcTs 2019 12 26 10 5 0)]
      = [mkSnapshot (utcTs 2019 12 26 10 40 0), mkSnapshot (utcTs 2019 12 26 10 5 0)] ∧
    find_oldest_in_window
        [mkSnapshot (utcTs 2019 12 26 10 40 0), mkSnapshot (utcTs 2019 12 26 10 5 0)]
        (utcTs 2019 12 26 10 0 0) (utcTs 2019 12 26 11 0 0)
      = some (mkSnapshot (utcTs 2019 12 26 10 40 0)) ∧
    (mkSnapshot (utcTs 2019 12 26 10 5 0)).ts < (mkSnapshot (utcTs 2019 12 26 10 40 0)).ts :=
  ⟨fun _ _ => Iff.rfl, by decide, by decide, by decide, by decide⟩

/-!
Claim C4: the end-to-end daily marking scenario over twelve snapshots.
-/

/-- The twelve snapshots of the end-to-end scenario, stamped +0100, in
ascending order. -/
def snapList4 : List ExistingSnapshot :=
  [mkSnapshot (utcTs 2019 11 7 8 7 42 - 3600000000),
   mkSnapshot (utcTs 2019 12 1 7 52 42 - 3600000000),
   mkSnapshot (utcTs 2019 12 13 10 47 42 - 3600000000),
   mkSnapshot (utcTs 2019 12 15 19 47 42 - 3600000000),
   mkSnapshot (utcTs 2019 12 16 9 47 42 - 3600000000),
   mkSnapshot (utcTs 2019 12 22 7 47 42 - 3600000000),
   mkSnapshot (utcTs 2019 12 24 4 47 42 - 3600000000),
   mkSnapshot (utcTs 2019 12 24 17 47 42 - 3600000000),
   mkSnapshot (utcTs 2019 12 25 11 3 32 - 3600000000),
   mkSnapshot (utcTs 2019 12 26 13 0 24 - 3600000000),
   mkSnapshot (utcTs 2019 12 26 14 1 17 - 3600000000),
   mkSnapshot (utcTs 2019 12 26 15 2 42 - 3600000000)]

/-- The same records with exactly the five claimed daily representatives
marked as kept. -/
def expected4 : List ExistingSnapshot :=
  [mkSnapshot (utcTs 2019 11 7 8 7 42 - 3600000000),
   mkSnapshot (utcTs 2019 12 1 7 52 42 - 3600000000),
   mkSnapshot (utcTs 2019 12 13 10 47 42 - 3600000000),
   mkSnapshot (utcTs 2019 12 15 19 47 42 - 3600000000),
   keep (mkSnapshot (utcTs 2019 12 16 9 47 42 - 3600000000)),
   keep (mkSnapshot (utcTs 2019 12 22 7 47 42 - 3600000000)),
   keep (mkSnapshot (utcTs 2019 12 24 4 47 42 - 3600000000)),
   mkSnapshot (utcTs 2019 12 24 17 47 42 - 3600000000),
   keep (mkSnapshot (utcTs 2019 12 25 11 3 32 - 3600000000)),
   keep (mkSnapshot (utcTs 2019 12 26 13 0 24 - 3600000000)),
   mkSnapshot (utcTs 2019 12 26 14 1 17 - 3600000000),
   mkSnapshot (utcTs 2019 12 26 15 2 42 - 3600000000)]

set_option maxRecDepth 10000 in
set_option maxHeartbeats 4000000 in
/-- Claim C4: marking five daily representatives from
now = 2019-12-26T15:01:36+01:00 keeps exactly the snapshots stamped
13:00:24 (Dec 26), 11:03:32 (Dec 25), 04:47:42 (Dec 24), 07:47:42 (Dec 22)
and 09:47:42 (Dec 16), and leaves every other snapshot unkept. -/
theorem claim4_mark_period_scenario :
    mark_period snapList4 (utcTs 2019 12 26 15 1 36 - 3600000000) .daily 5 = expected4 := by
  decide

/-!
Claim C6: the marking loop's window start strictly decreases, and the loop
stabilizes within the fuel bound derived from the earliest record.
-/

theorem rbd_lt_of_off {t : Int} (h : ¬ wall t % usDay = 0) : round_beginning_day t < t := by
  rw [rbd_eq_mid]
  rcases lt_or_eq_of_le (midnight_le t) with h1 | h1
  · exact h1
  · exact absurd (h1 ▸ midnight_onB_day (dayIdx t)) h

theorem prev_lt (p : Period) (t : Int) : prev_period p t < t := by
  by_cases h : onBoundary p t
  · have h2 := ((prev_boundary_spec p t).2 h).1
    rw [roundDown_fix h] at h2
    exact h2
  · rw [prev_off h]
    cases p with
    | hourly =>
      show round_beginning_hour t < t
      have hh : ¬ t % usH = 0 := h
      unfold round_beginning_hour usH at hh ⊢
      omega
    | daily => exact rbd_lt_of_off h
    | weekly =>
      show round_beginning_week t < t
      rw [rbw_eq_mid]
      by_cases hdb : wall t % usDay = 0
      · have ht := isDB_eq_midnight hdb
        have hwd : ¬ (dayIdx t + 3) % 7 = 0 := fun hc => h ⟨hc, hdb⟩
        have hlt : mondayIdx (dayIdx t) < dayIdx t := by unfold mondayIdx; omega
        have := midnight_strict hlt
        omega
      · have h1 : midnight (mondayIdx (dayIdx t)) ≤ midnight (dayIdx t) :=
          midnight_mono (by unfold mondayIdx; omega)
        rcases lt_or_eq_of_le (midnight_le t) with h2 | h2
        · omega
        · exact absurd (h2 ▸ midnight_onB_day (dayIdx t)) hdb
    | monthly =>
      show round_beginning_month t < t
      rw [rbm_eq_mid]
      have hb := civilDay_bounds (dayIdx t)
      by_cases hdb : wall t % usDay = 0
      · have ht := isDB_eq_midnight hdb
        have hd1 : ¬ civilDay (dayIdx t) = 1 := fun hc => h ⟨hc, hdb⟩
        have hlt : monthStartIdx (dayIdx t) < dayIdx t := by unfold monthStartIdx; omega
        have := midnight_strict hlt
        omega
      · have h1 : midnight (monthStartIdx (dayIdx t)) ≤ midnight (dayIdx t) :=
          midnight_mono (by unfold monthStartIdx; omega)
        rcases lt_or_eq_of_le (midnight_le t) with h2 | h2
        · omega
        · exact absurd (h2 ▸ midnight_onB_day (dayIdx t)) hdb
    | yearly =>
      show round_beginning_year t < t
      rw [rby_eq_mid]
      have hb := yday_bounds (dayIdx t)
      by_cases hdb : wall t % usDay = 0
      · have ht := isDB_eq_midnight hdb
        have hd1 : ¬ ydayOf (dayIdx t) = 0 := by
          intro hc
          have := (jan1_iff (dayIdx t)).mpr hc
          exact h ⟨this.1, this.2, hdb⟩
        have hlt : yearStartIdx (dayIdx t) < dayIdx t := by unfold yearStartIdx; omega
        have := midnight_strict hlt
        omega
      · have h1 : midnight (yearStartIdx (dayIdx t)) ≤ midnight (dayIdx t) :=
          midnight_mono (by unfold yearStartIdx; omega)
        rcases lt_or_eq_of_le (midnight_le t) with h2 | h2
        · omega
        · exact absurd (h2 ▸ midnight_onB_day (dayIdx t)) hdb

theorem markGo_of_fuelzero (p : Period) (g : Nat) (sl : List ExistingSnapshot) (e : Int)
    (nb : Nat) (h : markFuel sl e = 0) : markGo p g sl e nb = sl := by
  cases g with
  | zero => rfl
  | succ g =>
    cases sl with
    | nil => rfl
    | cons s0 rest =>
      cases nb with
      | zero => rfl
      | succ nb =>
        have h2 : (e - s0.ts + 1).toNat = 0 := h
        have hts : ¬ s0.ts ≤ e := by omega
        simp only [markGo, if_neg hts]

theorem markFuel_set (s0 : ExistingSnapshot) (rest : List ExistingSnapshot) (i : Nat)
    (s : ExistingSnapshot) (b : Int) (hfind : (s0 :: rest)[i]? = some s) :
    markFuel ((s0 :: rest).set i (keep s)) b = (b - s0.ts + 1).toNat := by
  cases i with
  | zero =>
    have hs : s0 = s := by
      rw [List.getElem?_cons_zero] at hfind
      injection hfind
    subst hs
    rfl
  | succ i => rfl

theorem markGo_fuel_inv (p : Period) :
    ∀ (f g : Nat) (sl : List ExistingSnapshot) (e : Int) (nb : Nat),
      markFuel sl e ≤ f → markFuel sl e ≤ g →
      markGo p f sl e nb = markGo p g sl e nb := by
  intro f
  induction f with
  | zero =>
    intro g sl e nb hf hg
    have h0 : markFuel sl e = 0 := by omega
    rw [markGo_of_fuelzero p 0 sl e nb h0, markGo_of_fuelzero p g sl e nb h0]
  | succ f ih =>
    intro g sl e nb hf hg
    cases g with
    | zero =>
      have h0 : markFuel sl e = 0 := by omega
      rw [markGo_of_fuelzero p (f + 1) sl e nb h0, markGo_of_fuelzero p 0 sl e nb h0]
    | succ g =>
      cases sl with
      | nil => rfl
      | cons s0 rest =>
        cases nb with
        | zero => rfl
        | succ nb =>
          by_cases hts : s0.ts ≤ e
          · have hfuel : markFuel (s0 :: rest) e = (e - s0.ts + 1).toNat := rfl
            rw [hfuel] at hf hg
            have hprev := prev_lt p e
            have hfuel2 : markFuel (s0 :: rest) (prev_period p e)
                = (prev_period p e - s0.ts + 1).toNat := rfl
            simp only [markGo, if_pos hts]
            split
            · next s heq =>
              split
              · next hk =>
                have hset := markFuel_set s0 rest _ s (prev_period p e) heq
                exact ih g _ (prev_period p e) nb (by rw [hset]; omega)
                  (by rw [hset]; omega)
              · next hk =>
                exact ih g (s0 :: rest) (prev_period p e) (nb + 1)
                  (by rw [hfuel2]; omega) (by rw [hfuel2]; omega)
            · next heq =>
              exact ih g (s0 :: rest) (prev_period p e) (nb + 1)
                (by rw [hfuel2]; omega) (by rw [hfuel2]; omega)
          · simp only [markGo, if_neg hts]

/-- Claim C6: the window start strictly decreases on every loop iteration of
`mark_period` (each `prev_*` strictly precedes its argument), and the loop
stabilizes within the fuel bound derived from the earliest record, so it
performs only a bounded number of iterations before its guard fails. -/
theorem claim6_mark_period_terminates :
    (∀ (p : Period) (e : Int), prev_period p e < e) ∧
    (∀ (p : Period) (sl : List ExistingSnapshot) (e : Int) (nb : Nat) (f : Nat),
      markFuel sl e ≤ f → markGo p f sl e nb = markGo p (markFuel sl e) sl e nb) :=
  ⟨prev_lt, fun p sl e nb f hf => markGo_fuel_inv p f (markFuel sl e) sl e nb hf (le_refl _)⟩

/-- Witness for C6: a strict decrease at a concrete instant, and the loop
result for the concrete scenario is unchanged when the fuel bound is raised. -/
theorem claim6_witness :
    prev_period .daily (utcTs 2019 12 26 15 1 36 - 3600000000)
        < utcTs 2019 12 26 15 1 36 - 3600000000 ∧
    markGo .daily (markFuel (sortColl snapList4) (utcTs 2019 12 26 15 1 36 - 3600000000) + 7)
        (sortColl snapList4) (utcTs 2019 12 26 15 1 36 - 3600000000) 5
      = markGo .daily (markFuel (sortColl snapList4) (utcTs 2019 12 26 15 1 36 - 3600000000))
        (sortColl snapList4) (utcTs 2019 12 26 15 1 36 - 3600000000) 5 :=
  ⟨claim6_mark_period_terminates.1 .daily (utcTs 2019 12 26 15 1 36 - 3600000000),
   claim6_mark_period_terminates.2 .daily (sortColl snapList4)
     (utcTs 2019 12 26 15 1 36 - 3600000000) 5 _ (by omega)⟩

/-!
Claim C7: the due test, its behaviour on the empty index, and that
`plan_retention` marks nothing on an empty index or an all-disabled
configuration.
-/

theorem markGo_zero (p : Period) (f : Nat) (sl : List ExistingSnapshot) (e : Int) :
    markGo p f sl e 0 = sl := by
  cases f with
  | zero => rfl
  | succ f =>
    cases sl with
    | nil => rfl
    | cons s0 rest => rfl

theorem has_empty (now : Int) (p : Period) :
    has_snapshop_in_last_period [] now p = false := rfl

theorem mark_period_zero (l : List ExistingSnapshot) (now : Int) (p : Period) :
    mark_period l now p 0 = sortColl l :=
  markGo_zero p _ _ _

theorem plan_retention_all_disabled (l : List ExistingSnapshot) (now : Int)
    (cfg : Period → Option Nat) (h : ∀ p, (cfg p).getD 0 = 0) :
    (plan_retention l now cfg).Perm l := by
  have step : ∀ (acc : List ExistingSnapshot) (p : Period),
      (match cfg p with
       | none => acc
       | some c => mark_period acc now p c).Perm acc := by
    intro acc p
    cases hc : cfg p with
    | none => exact List.Perm.refl acc
    | some c =>
      have hc0 : c = 0 := by
        have := h p
        rw [hc] at this
        simpa using this
      subst hc0
      show (mark_period acc now p 0).Perm acc
      rw [mark_period_zero]
      exact sortColl_perm acc
  have main : ∀ (ps : List Period) (acc : List ExistingSnapshot),
      (ps.foldl (fun acc p =>
        match cfg p with
        | none => acc
        | some c => mark_period acc now p c) acc).Perm acc := by
    intro ps
    induction ps with
    | nil => intro acc; exact List.Perm.refl acc
    | cons p ps ih =>
      intro acc
      exact (ih _).trans (step acc p)
  exact main periodKeys l

/-- Claim C7: the due test is the negated conjunction of the per-enabled-period
membership tests; on an empty index it returns true as soon as one granularity
is enabled; and on an empty index or an all-disabled configuration the
retention pass marks nothing (it only reorders records by key). -/
theorem claim7_is_snapshot_due :
    (∀ (l : List ExistingSnapshot) (now : Int) (cfg : Period → Option Nat),
      is_snapshot_due l now cfg =
        ! (periodKeys.filter (fun p => decide (0 < (cfg p).getD 0))).all
            (fun p => has_snapshop_in_last_period l now p)) ∧
    (∀ (now : Int) (cfg : Period → Option Nat) (p : Period),
      p ∈ periodKeys → 0 < (cfg p).getD 0 → is_snapshot_due [] now cfg = true) ∧
    (∀ (now : Int) (cfg : Period → Option Nat), plan_retention [] now cfg = []) ∧
    (∀ (l : List ExistingSnapshot) (now : Int) (cfg : Period → Option Nat),
      (∀ p, (cfg p).getD 0 = 0) → (plan_retention l now cfg).Perm l) := by
  refine ⟨fun _ _ _ => rfl, ?_, ?_, plan_retention_all_disabled⟩
  · intro now cfg p hp hcp
    cases hall : (periodKeys.filter (fun p => decide (0 < (cfg p).getD 0))).all
        (fun p => has_snapshop_in_last_period [] now p) with
    | false =>
      unfold is_snapshot_due
      rw [hall]
      rfl
    | true =>
      exfalso
      have hmem : p ∈ periodKeys.filter (fun p => decide (0 < (cfg p).getD 0)) :=
        List.mem_filter.mpr ⟨hp, by simpa using hcp⟩
      have := List.all_eq_true.mp hall p hmem
      rw [has_empty] at this
      exact Bool.false_ne_true this
  · intro now cfg
    unfold plan_retention periodKeys
    simp only [List.foldl]
    cases cfg .hourly <;> cases cfg .daily <;> cases cfg .weekly <;>
      cases cfg .monthly <;> cases cfg .yearly <;> rfl

/-- Witness for C7 on a configuration enabling only the daily granularity. -/
theorem claim7_witness :
    is_snapshot_due [] (utcTs 2019 12 26 15 0 0)
        (fun p => if p = .daily then some 7 else none) = true :=
  claim7_is_snapshot_due.2.1 (utcTs 2019 12 26 15 0 0)
    (fun p => if p = .daily then some 7 else none) .daily (by decide) (by decide)

/-!
Claim C9: the hour-window membership test with the nearest prior snapshot 61
or 59 minutes old.  The claim as universally stated fails (a snapshot 59
minutes before an instant in mid-hour falls in the previous hour bucket);
with the hour-bucket premise it holds.
-/

theorem prev_hour_aligned (t : Int) :
    round_beginning_hour (prev_hour t) = prev_hour t := by
  unfold prev_hour round_beginning_hour usH
  split_ifs <;> omega

theorem hour_arith_61 {u now : Int} (h : u ≤ now - 61 * 60 * 1000000) :
    round_beginning_hour u < prev_hour now := by
  unfold prev_hour round_beginning_hour usH
  split_ifs <;> omega

theorem hour_arith_59 {now : Int}
    (h : now % usH = 0 ∨ 59 * 60 * 1000000 ≤ now % usH) :
    prev_hour now ≤ round_beginning_hour (now - 59 * 60 * 1000000) ∧
    round_beginning_hour (now - 59 * 60 * 1000000) < now := by
  unfold usH at h
  unfold prev_hour round_beginning_hour usH
  split_ifs <;> omega

/-- Claim C9, amended: over an index of constructed records, the Hour test is
false when every snapshot is at least 61 minutes old, and true when some
snapshot is exactly 59 minutes old, no snapshot is in the future, and `now`
is either on the hour or at least 59 minutes into its hour. -/
theorem claim9_hour_window :
    ∀ (now : Int) (l : List ExistingSnapshot),
      (∀ s ∈ l, s.key = round_beginning_hour s.ts) →
      ((∀ s ∈ l, s.ts ≤ now - 61 * 60 * 1000000) →
        has_snapshop_in_last_period l now .hourly = false) ∧
      ((∀ s ∈ l, s.ts ≤ now) → (∃ s ∈ l, s.ts = now - 59 * 60 * 1000000) →
        (now % usH = 0 ∨ 59 * 60 * 1000000 ≤ now % usH) →
        has_snapshop_in_last_period l now .hourly = true) := by
  intro now l hwf
  constructor
  · intro hold
    cases hf : find_oldest_in_window l (prev_period .hourly now) now with
    | none =>
      unfold has_snapshop_in_last_period
      rw [hf]
      rfl
    | some s =>
      exfalso
      have hspec := (find_oldest_spec l (prev_period .hourly now) now
        (prev_hour_aligned now)).1 s hf
      have hkey := hwf s hspec.1
      have hts := hold s hspec.1
      have harith := hour_arith_61 hts
      have hb : prev_period .hourly now ≤ s.key := hspec.2.1
      rw [hkey] at hb
      have hph : prev_period .hourly now = prev_hour now := rfl
      rw [hph] at hb
      omega
  · intro hpast hex hpos
    obtain ⟨s0, hs0mem, hs0ts⟩ := hex
    cases hf : find_oldest_in_window l (prev_period .hourly now) now with
    | some s =>
      unfold has_snapshop_in_last_period
      rw [hf]
      rfl
    | none =>
      exfalso
      have hspec := (find_oldest_spec l (prev_period .hourly now) now
        (prev_hour_aligned now)).2 hf s0 hs0mem
      have hkey := hwf s0 hs0mem
      have harith := hour_arith_59 hpos
      apply hspec
      constructor
      · rw [hkey, hs0ts]
        exact harith.1
      · rw [hkey, hs0ts]
        exact harith.2

/-- Counterexample to claim C9 as stated: a single snapshot exactly 59
minutes before now = 10:05:00Z is the nearest prior snapshot, yet the Hour
test is false, because its key falls in the previous hour bucket. -/
theorem claim9_counterexample :
    has_snapshop_in_last_period
        [mkSnapshot (utcTs 2019 12 26 10 5 0 - 59 * 60 * 1000000)]
        (utcTs 2019 12 26 10 5 0) .hourly = false := by decide

/-- Witness for the amended C9 at an on-the-hour instant. -/
theorem claim9_witness :
    has_snapshop_in_last_period
        [mkSnapshot (utcTs 2019 12 26 10 0 0 - 59 * 60 * 1000000)]
        (utcTs 2019 12 26 10 0 0) .hourly = true :=
  (claim9_hour_window (utcTs 2019 12 26 10 0 0)
      [mkSnapshot (utcTs 2019 12 26 10 0 0 - 59 * 60 * 1000000)] (by decide)).2
    (by decide) (by decide) (by decide)

/-!
Claim C5: the selection performed by `mark_period` depends only on the
immutable instants and keys, and marking is monotone, so re-invoking the pass
with identical arguments reselects the same records and changes nothing.
-/

/-- The immutable part of the records: instants and keys, in order. -/
def skeleton (l : List ExistingSnapshot) : List (Int × Int) :=
  l.map (fun s => (s.ts, s.key))

theorem getElem?_lt_length {α : Type} :
    ∀ (l : List α) (i : Nat) (a : α), l[i]? = some a → i < l.length := by
  intro l
  induction l with
  | nil => intro i a h; simp at h
  | cons x xs ih =>
    intro i a h
    cases i with
    | zero => simp
    | succ i =>
      have := ih i a (by simpa using h)
      simp only [List.length_cons]
      omega

theorem set_getElem_self {α : Type} :
    ∀ (l : List α) (i : Nat) (a : α), l[i]? = some a → l.set i a = l := by
  intro l
  induction l with
  | nil => intro i a h; simp at h
  | cons x xs ih =>
    intro i a h
    cases i with
    | zero =>
      have hx : x = a := by simpa using h
      rw [List.set_cons_zero, hx]
    | succ i =>
      rw [List.set_cons_succ, ih i a (by simpa using h)]

theorem keep_of_kept {s : ExistingSnapshot} (h : s.is_kept = true) : keep s = s := by
  cases s
  simp only [keep]
  simp_all

theorem skeleton_set_keep {sl : List ExistingSnapshot} {i : Nat} {s : ExistingSnapshot}
    (h : sl[i]? = some s) : skeleton (sl.set i (keep s)) = skeleton sl := by
  unfold skeleton
  rw [List.map_set]
  have hf : (sl.map (fun s => (s.ts, s.key)))[i]? = some (s.ts, s.key) := by
    rw [List.getElem?_map, h]
    rfl
  exact set_getElem_self _ _ _ hf

theorem bisectLeft_skeleton (l : List ExistingSnapshot) (k : Int) :
    bisectLeft l k = ((skeleton l).takeWhile (fun c => decide (c.2 < k))).length := by
  unfold bisectLeft skeleton
  rw [List.takeWhile_map, List.length_map]
  rfl

theorem bisectLeft_congr {a b : List ExistingSnapshot} (h : skeleton a = skeleton b)
    (k : Int) : bisectLeft a k = bisectLeft b k := by
  rw [bisectLeft_skeleton, bisectLeft_skeleton, h]

theorem skeleton_getElem {a b : List ExistingSnapshot} (h : skeleton a = skeleton b)
    (i : Nat) :
    (a[i]?).map (fun s => (s.ts, s.key)) = (b[i]?).map (fun s => (s.ts, s.key)) := by
  have h2 : (skeleton a)[i]? = (skeleton b)[i]? := by rw [h]
  unfold skeleton at h2
  rw [List.getElem?_map, List.getElem?_map] at h2
  exact h2

theorem skeleton_getElem_some {a b : List ExistingSnapshot} (h : skeleton a = skeleton b)
    {i : Nat} {s : ExistingSnapshot} (hb : b[i]? = some s) :
    ∃ s', a[i]? = some s' ∧ s'.ts = s.ts ∧ s'.key = s.key := by
  have h2 := skeleton_getElem h i
  rw [hb] at h2
  cases ha : a[i]? with
  | none => rw [ha] at h2; simp at h2
  | some s' =>
    rw [ha] at h2
    simp at h2
    exact ⟨s', rfl, h2.1, h2.2⟩

theorem skeleton_getElem_none {a b : List ExistingSnapshot} (h : skeleton a = skeleton b)
    {i : Nat} (hb : b[i]? = none) : a[i]? = none := by
  have h2 := skeleton_getElem h i
  rw [hb] at h2
  cases ha : a[i]? with
  | none => rfl
  | some s' => rw [ha] at h2; simp at h2

theorem skeleton_cases {M : List ExistingSnapshot} {s0 : ExistingSnapshot}
    {rest : List ExistingSnapshot} (h : skeleton M = skeleton (s0 :: rest)) :
    ∃ m0 mrest, M = m0 :: mrest ∧ m0.ts = s0.ts ∧ m0.key = s0.key := by
  cases M with
  | nil => exact absurd h (by simp [skeleton])
  | cons m0 mrest =>
    unfold skeleton at h
    simp only [List.map_cons, List.cons.injEq, Prod.mk.injEq] at h
    exact ⟨m0, mrest, rfl, h.1.1, h.1.2⟩

theorem markGo_succ_eq (p : Period) (f : Nat) (s0 : ExistingSnapshot)
    (rest : List ExistingSnapshot) (e : Int) (nb : Nat) (hts : s0.ts ≤ e) :
    markGo p (f + 1) (s0 :: rest) e (nb + 1) =
      match (s0 :: rest)[bisectLeft (s0 :: rest)
          (round_beginning_hour (prev_period p e))]? with
      | some s =>
        if s.key < e then
          markGo p f ((s0 :: rest).set (bisectLeft (s0 :: rest)
            (round_beginning_hour (prev_period p e))) (keep s)) (prev_period p e) nb
        else markGo p f (s0 :: rest) (prev_period p e) (nb + 1)
      | none => markGo p f (s0 :: rest) (prev_period p e) (nb + 1) := by
  simp only [markGo, if_pos hts]

theorem markGo_skeleton (p : Period) :
    ∀ (f : Nat) (sl : List ExistingSnapshot) (e : Int) (nb : Nat),
      skeleton (markGo p f sl e nb) = skeleton sl := by
  intro f
  induction f with
  | zero => intro sl e nb; rfl
  | succ f ih =>
    intro sl e nb
    cases sl with
    | nil => rfl
    | cons s0 rest =>
      cases nb with
      | zero => rfl
      | succ nb =>
        by_cases hts : s0.ts ≤ e
        · rw [markGo_succ_eq p f s0 rest e nb hts]
          split
          · next s heq =>
            split
            · next hk => rw [ih]; exact skeleton_set_keep heq
            · next hk => exact ih _ _ _
          · next heq => exact ih _ _ _
        · simp only [markGo, if_neg hts]

theorem markGo_kept_at (p : Period) :
    ∀ (f : Nat) (sl : List ExistingSnapshot) (e : Int) (nb : Nat) (i : Nat)
      (s : ExistingSnapshot), sl[i]? = some s → s.is_kept = true →
      ∃ s', (markGo p f sl e nb)[i]? = some s' ∧ s'.is_kept = true := by
  intro f
  induction f with
  | zero => intro sl e nb i s h hk; exact ⟨s, h, hk⟩
  | succ f ih =>
    intro sl e nb i s h hk
    cases sl with
    | nil => exact ⟨s, h, hk⟩
    | cons s0 rest =>
      cases nb with
      | zero => exact ⟨s, h, hk⟩
      | succ nb =>
        by_cases hts : s0.ts ≤ e
        · rw [markGo_succ_eq p f s0 rest e nb hts]
          split
          · next t heq =>
            split
            · next hkey =>
              by_cases hij :
                  bisectLeft (s0 :: rest) (round_beginning_hour (prev_period p e)) = i
              · subst hij
                apply ih _ _ _ _ (keep t)
                · rw [List.getElem?_set_self
                    (getElem?_lt_length _ _ _ heq)]
                · rfl
              · apply ih _ _ _ _ s
                · rw [List.getElem?_set_ne hij]
                  exact h
                · exact hk
            · next hkey => exact ih _ _ _ _ s h hk
          · next heq => exact ih _ _ _ _ s h hk
        · simp only [markGo, if_neg hts]
          exact ⟨s, h, hk⟩

theorem markGo_idem (p : Period) :
    ∀ (f : Nat) (sl : List ExistingSnapshot) (e : Int) (nb : Nat),
      markGo p f (markGo p f sl e nb) e nb = markGo p f sl e nb := by
  intro f
  induction f with
  | zero => intro sl e nb; rfl
  | succ f ih =>
    intro sl e nb
    cases sl with
    | nil => rfl
    | cons s0 rest =>
      cases nb with
      | zero => rfl
      | succ nb =>
        by_cases hts : s0.ts ≤ e
        · rw [markGo_succ_eq p f s0 rest e nb hts]
          split
          · next s heq =>
            split
            · next hkey =>
              have hilen := getElem?_lt_length _ _ _ heq
              have hset : ((s0 :: rest).set (bisectLeft (s0 :: rest)
                  (round_beginning_hour (prev_period p e))) (keep s))[bisectLeft (s0 :: rest)
                  (round_beginning_hour (prev_period p e))]? = some (keep s) :=
                List.getElem?_set_self hilen
              have hskel : skeleton (markGo p f ((s0 :: rest).set (bisectLeft (s0 :: rest)
                  (round_beginning_hour (prev_period p e))) (keep s)) (prev_period p e) nb)
                  = skeleton (s0 :: rest) := by
                rw [markGo_skeleton]
                exact skeleton_set_keep heq
              obtain ⟨m0, mrest, hM2, hts0, hkey0⟩ := skeleton_cases hskel
              rw [hM2]
              have hskel2 : skeleton (m0 :: mrest) = skeleton (s0 :: rest) := by
                rw [← hM2]; exact hskel
              rw [markGo_succ_eq p f m0 mrest e nb (by rw [hts0]; exact hts)]
              rw [bisectLeft_congr hskel2]
              obtain ⟨s', hfind2, hts2, hkey2⟩ := skeleton_getElem_some hskel2 heq
              rw [hfind2]
              show (if s'.key < e then
                  markGo p f ((m0 :: mrest).set (bisectLeft (s0 :: rest)
                      (round_beginning_hour (prev_period p e))) (keep s'))
                    (prev_period p e) nb
                else markGo p f (m0 :: mrest) (prev_period p e) (nb + 1)) = m0 :: mrest
              rw [if_pos (show s'.key < e by rw [hkey2]; exact hkey)]
              have hkept : ∃ t, (markGo p f ((s0 :: rest).set (bisectLeft (s0 :: rest)
                  (round_beginning_hour (prev_period p e))) (keep s))
                  (prev_period p e) nb)[bisectLeft (s0 :: rest)
                  (round_beginning_hour (prev_period p e))]? = some t ∧ t.is_kept = true :=
                markGo_kept_at p f _ _ _ _ (keep s) hset rfl
              obtain ⟨t, htfind, htkept⟩ := hkept
              have hts' : s'.is_kept = true := by
                rw [hM2] at htfind
                rw [htfind] at hfind2
                injection hfind2 with hst
                rw [← hst]
                exact htkept
              rw [keep_of_kept hts']
              rw [set_getElem_self _ _ _ hfind2]
              rw [← hM2]
              exact ih _ (prev_period p e) nb
            · next hkey =>
              have hskel : skeleton (markGo p f (s0 :: rest) (prev_period p e) (nb + 1))
                  = skeleton (s0 :: rest) := markGo_skeleton p f _ _ _
              obtain ⟨m0, mrest, hM2, hts0, hkey0⟩ := skeleton_cases hskel
              rw [hM2]
              have hskel2 : skeleton (m0 :: mrest) = skeleton (s0 :: rest) := by
                rw [← hM2]; exact hskel
              rw [markGo_succ_eq p f m0 mrest e nb (by rw [hts0]; exact hts)]
              rw [bisectLeft_congr hskel2]
              obtain ⟨s', hfind2, hts2, hkey2⟩ := skeleton_getElem_some hskel2 heq
              rw [hfind2]
              show (if s'.key < e then
                  markGo p f ((m0 :: mrest).set (bisectLeft (s0 :: rest)
                      (round_beginning_hour (prev_period p e))) (keep s'))
                    (prev_period p e) nb
                else markGo p f (m0 :: mrest) (prev_period p e) (nb + 1)) = m0 :: mrest
              rw [if_neg (show ¬ s'.key < e by rw [hkey2]; exact hkey)]
              rw [← hM2]
              exact ih (s0 :: rest) (prev_period p e) (nb + 1)
          · next heq =>
            have hskel : skeleton (markGo p f (s0 :: rest) (prev_period p e) (nb + 1))
                = skeleton (s0 :: rest) := markGo_skeleton p f _ _ _
            obtain ⟨m0, mrest, hM2, hts0, hkey0⟩ := skeleton_cases hskel
            rw [hM2]
            have hskel2 : skeleton (m0 :: mrest) = skeleton (s0 :: rest) := by
              rw [← hM2]; exact hskel
            rw [markGo_succ_eq p f m0 mrest e nb (by rw [hts0]; exact hts)]
            rw [bisectLeft_congr hskel2]
            rw [skeleton_getElem_none hskel2 heq]
            rw [← hM2]
            exact ih (s0 :: rest) (prev_period p e) (nb + 1)
        · have hstep : markGo p (f + 1) (s0 :: rest) e (nb + 1) = s0 :: rest := by
            simp only [markGo, if_neg hts]
          rw [hstep, hstep]

theorem skeleton_keys {l l' : List ExistingSnapshot}
    (h : skeleton l = skeleton l') :
    l.map (fun s => s.key) = l'.map (fun s => s.key) := by
  have h1 : (skeleton l).map (fun q => q.2) = (skeleton l').map (fun q => q.2) := by
    rw [h]
  simpa [skeleton, List.map_map, Function.comp] using h1

theorem sorted_of_skeleton_eq {l l' : List ExistingSnapshot}
    (h : skeleton l = skeleton l') (hs : List.Sorted keyLE l') :
    List.Sorted keyLE l := by
  have hk := skeleton_keys h
  have h1 : List.Pairwise (fun a b : Int => a ≤ b) (l.map (fun s => s.key)) := by
    rw [hk, List.pairwise_map]
    exact hs
  rw [List.pairwise_map] at h1
  exact h1

theorem markFuel_congr {l l' : List ExistingSnapshot}
    (h : skeleton l = skeleton l') (e : Int) : markFuel l e = markFuel l' e := by
  cases l with
  | nil =>
    cases l' with
    | nil => rfl
    | cons b m => exact absurd h (by simp [skeleton])
  | cons a m =>
    cases l' with
    | nil => exact absurd h (by simp [skeleton])
    | cons b m' =>
      unfold skeleton at h
      simp only [List.map_cons, List.cons.injEq, Prod.mk.injEq] at h
      show (e - a.ts + 1).toNat = (e - b.ts + 1).toNat
      rw [h.1.1]

theorem sortColl_of_sorted {l : List ExistingSnapshot} (h : List.Sorted keyLE l) :
    sortColl l = l :=
  List.Sorted.insertionSort_eq h

/-- C5: `mark_period` is idempotent — invoking the marking pass a second time
with identical arguments (`now`, granularity, count) on the collection it
already marked selects exactly the same records and never unmarks any, so the
result (and hence the kept set) after two invocations equals the result
after one. -/
theorem claim5_mark_period_idem (l : List ExistingSnapshot) (now : Int)
    (p : Period) (nb : Nat) :
    mark_period (mark_period l now p nb) now p nb = mark_period l now p nb := by
  unfold mark_period
  have hskel : skeleton (markGo p (markFuel (sortColl l) now) (sortColl l) now nb)
      = skeleton (sortColl l) := markGo_skeleton p _ _ _ _
  have hsorted : List.Sorted keyLE
      (markGo p (markFuel (sortColl l) now) (sortColl l) now nb) :=
    sorted_of_skeleton_eq hskel (sortColl_sorted l)
  rw [sortColl_of_sorted hsorted]
  rw [markFuel_congr hskel now]
  exact markGo_idem p _ _ now nb
